import Mathlib

/-!
# kanugo: board / form state machine

A shallow embedding of `main.go` (the kanban board `Model`, the `Form`, and the
statements they send over the database connection `conn`), followed by theorems
about focus movement, moving and deleting the selected task, task creation and
re-seeding the board from the store.

Conventions of the embedding.

* Go `int` values (`status`, task ids, widget sizes) are `Int`; every theorem
  below works with the three declared statuses, far from the 64-bit bounds.
* A Go run-time panic (slice index out of range) and `os.Exit` are the error
  results of `Except Abort`.
* The package-level variables `conn` and `models`, together with the text
  written to `os.Stderr`, are threaded explicitly as `Globals`.
* The widgets of the `bubbles` library (`list.Model`, `textinput.Model`,
  `textarea.Model`) are external collaborators.  `ListModel` keeps the part of
  `list.Model` that `main.go` reads and writes (the item slice, the filter state
  with the filtered items, and the index of the cursor), `TextField` keeps the
  value and the input focus of a text widget, and the reaction of a widget to a
  forwarded message is a parameter (`Collab`).
* A `tea.Cmd` returned by `Update` is data (`Cmd`); `runCmd` executes it right
  after the `Update` that returned it, the single-threaded processing of one event
  at a time that the design prescribes.
-/

namespace Kanugo

/-! ## Data model -/

/-- Go: `type status int`. -/
abbrev status := Int

/-- Go: `todo status = iota`. -/
def todo : status := 0
/-- Go: `inProgress` (iota = 1). -/
def inProgress : status := 1
/-- Go: `done` (iota = 2). -/
def done : status := 2

/-- Go: `const divisor = 2`. -/
def divisor : Int := 2

/-- Go: `type Task struct`. -/
structure Task where
  id : Int
  status : status
  title : String
  description : String
deriving DecidableEq, Repr

/-- Go: `NewTask`; the `id` field is not mentioned in the composite literal and so
holds the zero value. -/
def NewTask (status : status) (title description : String) : Task :=
  { id := 0, status := status, title := title, description := description }

/-- Go: `func (t *Task) Next()`.  The branch for `done` wraps to `todo`, the leftmost
column, although the help bar of the board (`helpBar`) words the key as
"Enter: Move to right". -/
def Task.Next (t : Task) : Task :=
  if t.status = done then { t with status := todo } else { t with status := t.status + 1 }

/-- Go: `func (t *Task) Prev()`. -/
def Task.Prev (t : Task) : Task :=
  if t.status = todo then { t with status := done } else { t with status := t.status - 1 }

/-- The result of a computation that may panic or leave the process. -/
inductive Abort where
  | panic
  | exit (code : Int)
deriving DecidableEq, Repr

/-! ## The list widget (`bubbles/list`), as far as `main.go` uses it -/

/-- Widget: `FilterState`: no filter set, the user is typing a filter, a filter is
applied. -/
inductive FilterState where
  | Unfiltered
  | Filtering
  | FilterApplied
deriving DecidableEq, Repr

/-- The part of `list.Model` used by `main.go`: title, size, the item slice (every
item stored by `main.go` is a `Task`), the index of the cursor
(`Paginator.Page*Paginator.PerPage + cursor`), the filter state and the items that
pass the filter, in the order the widget shows them.  Inserting, removing and
setting items leave the index where it is; where the widget would move the cursor,
`BoardOp.Cursor` below puts it on any index. -/
structure ListModel where
  Title : String
  width : Int
  height : Int
  items : List Task
  index : Nat
  filterState : FilterState
  filteredItems : List Task
deriving DecidableEq, Repr

/-- Widget: `list.New(items, delegate, width, height)`; the title defaults to
"List" and no filter is set. -/
def ListModel.New (items : List Task) (width height : Int) : ListModel :=
  { Title := "List", width := width, height := height, items := items, index := 0,
    filterState := FilterState.Unfiltered, filteredItems := [] }

/-- Widget: `Index()`, the index of the cursor among the visible items. -/
def ListModel.Index (l : ListModel) : Nat := l.index

/-- Widget: `Items()`, all items whether or not they pass the filter. -/
def ListModel.Items (l : ListModel) : List Task := l.items

/-- Widget: `VisibleItems()`: the filtered items once a filter is being typed or is
applied, all items otherwise. -/
def ListModel.VisibleItems (l : ListModel) : List Task :=
  if l.filterState ≠ FilterState.Unfiltered then l.filteredItems else l.items

/-- Widget: `SelectedItem()`: the visible item under the cursor, nil when the cursor
is outside the visible items. -/
def ListModel.SelectedItem (l : ListModel) : Option Task :=
  if l.VisibleItems.length = 0 ∨ l.VisibleItems.length ≤ l.Index then none
  else l.VisibleItems[l.Index]?

/-- Widget helper `removeItemFromSlice` (and `removeFilterMatchFromSlice`, the same
on the filtered items): an index past the end is a no-op. -/
def removeItemFromSlice (i : List Task) (index : Nat) : List Task :=
  if index ≥ i.length then i else i.eraseIdx index

/-- Widget: `resetFiltering()`. -/
def ListModel.resetFiltering (l : ListModel) : ListModel :=
  if l.filterState = FilterState.Unfiltered then l
  else { l with filterState := FilterState.Unfiltered, filteredItems := [] }

/-- Widget: `RemoveItem(index)`: the item at `index` of the item slice goes; with a
filter set, the entry at the same `index` of the filtered items goes too, and the
filter is reset once no filtered item is left. -/
def ListModel.RemoveItem (l : ListModel) (index : Nat) : ListModel :=
  let l1 := { l with items := removeItemFromSlice l.items index }
  if l1.filterState ≠ FilterState.Unfiltered then
    let l2 := { l1 with filteredItems := removeItemFromSlice l1.filteredItems index }
    if l2.filteredItems.length = 0 then l2.resetFiltering else l2
  else l1

/-- Widget helper `insertItemIntoSlice`: an index at or past the end appends, a
negative index is raised to 0, otherwise the item is placed at `index` and the
items from `index` on shift one place to the right. -/
def insertItemIntoSlice (items : List Task) (item : Task) (index : Int) : List Task :=
  if index ≥ (items.length : Int) then items ++ [item]
  else
    let index := max 0 index
    items.take index.toNat ++ item :: items.drop index.toNat

/-- Widget: `InsertItem(index, item)`, as far as the list is concerned; with a
filter set the widget also returns the command that recomputes the filtered items
(`ListModel.filterCmd`). -/
def ListModel.InsertItem (l : ListModel) (index : Int) (item : Task) : ListModel :=
  { l with items := insertItemIntoSlice l.items item index }

/-- Widget: `SetItems(items)`; with a filter set the filtered items are dropped
until the widget has recomputed them. -/
def ListModel.SetItems (l : ListModel) (items : List Task) : ListModel :=
  if l.filterState ≠ FilterState.Unfiltered then { l with items := items, filteredItems := [] }
  else { l with items := items }

/-! ## Text widgets (`bubbles/textinput`, `bubbles/textarea`) -/

/-- The part of a text widget used by `main.go`: its value and its input focus. -/
structure TextField where
  value : String
  focus : Bool
deriving DecidableEq, Repr

/-- Widget: `textinput.New()` / `textarea.New()`: empty and not focused. -/
def TextField.New : TextField := { value := "", focus := false }

/-- Widget: `Focused()`. -/
def TextField.Focused (t : TextField) : Bool := t.focus

/-- Widget: `Focus()`. -/
def TextField.Focus (t : TextField) : TextField := { t with focus := true }

/-- Widget: `Blur()`. -/
def TextField.Blur (t : TextField) : TextField := { t with focus := false }

/-- Widget: `Value()`. -/
def TextField.Value (t : TextField) : String := t.value

/-! ## Messages, models, commands -/

/-- The `tea.Msg` values that occur in `main.go`.  `KeyMsg s` is a key message
whose `String()` is `s`; `movedTaskFn` and `deletedTaskFn` are the function
values `func() tea.Msg { return MovedTaskMsg{} }` and
`func() tea.Msg { return DeletedTaskMsg{} }` that `MoveToNext` and `Delete`
return as their message. -/
inductive Msg where
  | nil
  | WindowSizeMsg (Width Height : Int)
  | KeyMsg (s : String)
  | task (t : Task)
  | MovedTaskMsg
  | DeletedTaskMsg
  | movedTaskFn
  | deletedTaskFn
deriving DecidableEq, Repr

/-- The key message of a single typed character `c` (`tea.KeyRunes` with the one
rune `c`); its `String()` is the character itself. -/
def runeKey (c : Char) : Msg := Msg.KeyMsg (String.singleton c)

/-- Go: `type Model struct` (the field `err` is never read or written). -/
structure Model where
  focused : status
  lists : List ListModel
  loaded : Bool
  quitting : Bool
deriving DecidableEq, Repr

/-- Go: `New()`, the zero `Model`. -/
def New : Model := { focused := 0, lists := [], loaded := false, quitting := false }

/-- Go: `type Form struct`. -/
structure Form where
  focused : status
  title : TextField
  description : TextField
deriving DecidableEq, Repr

/-- Go: `NewForm`. -/
def NewForm (focused : status) : Form :=
  { focused := focused, title := TextField.New.Focus, description := TextField.New }

/-- A `tea.Model` held by the program: the board or the form. -/
inductive TeaModel where
  | board (m : Model)
  | form (f : Form)
deriving DecidableEq, Repr

/-- The `tea.Cmd` values that occur in `main.go`: nil, `tea.Quit`, the method
values `m.MoveToNext`, `m.Delete` (bound to the board the `Update` returns) and
`m.CreateTask` (bound to a copy of the form), `textarea.Blink`, and a command
handed back by a widget. -/
inductive Cmd where
  | nil
  | Quit
  | MoveToNext
  | Delete
  | CreateTask (f : Form)
  | Blink
  | widget
deriving DecidableEq, Repr

/-- What `list.Model.Update` does with a message: the index the cursor moves to,
the filter state afterwards, and the filtered items afterwards: `none` when they
stay as they are, `some ps` when the widget sets them to the items at the positions
`ps` of its item slice, in that order (every item when a filter is opened, the
matches in rank order when the filter text changes, none when the filter is
reset). -/
structure ListReaction where
  index : Nat
  filterState : FilterState
  matched : Option (List Nat)
deriving DecidableEq, Repr

/-- The reactions of the widgets to a message forwarded to them: what the list
does (`list.Model.Update` moves the cursor and works on the filter; it never
touches the item slice), together with the message its own command delivers next,
and the new state of a text widget. -/
structure Collab where
  listUpdate : ListModel → Msg → ListReaction
  textinputUpdate : TextField → Msg → TextField
  textareaUpdate : TextField → Msg → TextField

/-- Widget: `list.Model.Update(msg)`. -/
def ListModel.Update (c : Collab) (l : ListModel) (msg : Msg) : ListModel :=
  let r := c.listUpdate l msg
  { l with
    index := r.index,
    filterState := r.filterState,
    filteredItems :=
      match r.matched with
      | none => l.filteredItems
      | some ps => ps.filterMap (fun p => l.items[p]?) }

/-- Widget: the command `InsertItem` returns: nil without a filter, otherwise the
command that recomputes the filtered items. -/
def ListModel.filterCmd (l : ListModel) : Cmd :=
  if l.filterState ≠ FilterState.Unfiltered then Cmd.widget else Cmd.nil

/-! ## The store behind `conn` -/

/-- A statement sent over `conn`, with its arguments:
`update tasks set status=$1 where id=$2`, `delete from tasks where id=$1`,
`INSERT INTO tasks (status, title, description) VALUES ($1, $2, $3)` and
`select id, status, title, description from tasks where status=$1`. -/
inductive StoreCall where
  | update (status : status) (id : Int)
  | delete (id : Int)
  | insert (status : status) (title description : String)
  | select (status : status)
deriving DecidableEq, Repr

/-- The connection `conn` with the table `tasks` behind it: the rows of the table,
the identifier the table gives to the next inserted row, the outcomes of the
coming calls (`true`: the call succeeds, `false`: it returns an error; once the
list is used up every call succeeds) and the log of the calls issued so far. -/
structure Conn where
  rows : List Task
  nextId : Int
  script : List Bool
  calls : List StoreCall
deriving DecidableEq, Repr

/-- Modelled from the spec: the table `tasks` is created by the migration files
(`migrations/*.sql`), which are not among the sources; following the Store
Gateway contract, an insert stores the row under a store-assigned identifier
(`nextId`, then advanced), an update or delete of an identifier that is absent
changes nothing, and a select changes nothing. -/
def Conn.apply (c : Conn) : StoreCall → Conn
  | .update s id =>
      { c with rows := c.rows.map (fun r => if r.id = id then { r with status := s } else r) }
  | .delete id => { c with rows := c.rows.filter (fun r => decide (r.id ≠ id)) }
  | .insert s t d =>
      { c with rows := c.rows ++ [{ id := c.nextId, status := s, title := t, description := d }],
               nextId := c.nextId + 1 }
  | .select _ => c

/-- Go: `conn.Exec(ctx, sql, args...)`; the result is whether `err != nil` and the
connection afterwards.  A failing call is logged and leaves the table as it was. -/
def Conn.Exec (c : Conn) (call : StoreCall) : Bool × Conn :=
  match c.script with
  | false :: rest => (true, { c with script := rest, calls := c.calls ++ [call] })
  | true :: rest => (false, { c.apply call with script := rest, calls := c.calls ++ [call] })
  | [] => (false, { c.apply call with calls := c.calls ++ [call] })

/-- Go: `conn.Query(ctx, "select ... where status=$1", s)` followed by the scan of
every row: the rows with that status in table order, or none when the query fails. -/
def Conn.Query (c : Conn) (s : status) : Option (List Task) × Conn :=
  match c.Exec (.select s) with
  | (true, c1) => (none, c1)
  | (false, c1) => (some (c.rows.filter (fun r => decide (r.status = s))), c1)

/-- Go: `var models []tea.Model`, always of length two: `models[kan]` and
`models[form]`. -/
structure Models where
  kan : TeaModel
  form : TeaModel
deriving DecidableEq, Repr

/-- The package-level state: `conn`, `models`, and the lines written to
`os.Stderr`. -/
structure Globals where
  conn : Conn
  models : Models
  stderr : List String
deriving DecidableEq, Repr

/-! ## Board -/

/-- Go: `m.lists[i]` as a read; an index outside the slice panics. -/
def listAt (lists : List ListModel) (i : status) : Except Abort ListModel :=
  if i < 0 then throw Abort.panic
  else match lists[i.toNat]? with
    | some l => pure l
    | none => throw Abort.panic

/-- Go: `m.lists[i]` as the target of a method with pointer receiver, after the
read at the same index went through. -/
def listSet (lists : List ListModel) (i : status) (l : ListModel) : List ListModel :=
  lists.set i.toNat l

/-- Go: `func (m *Model) Next()`. -/
def Model.Next (m : Model) : Model :=
  if m.focused = done then { m with focused := todo } else { m with focused := m.focused + 1 }

/-- Go: `func (m *Model) Prev()`. -/
def Model.Prev (m : Model) : Model :=
  if m.focused = todo then { m with focused := done } else { m with focused := m.focused - 1 }

/-- Go: `func (m *Model) MoveToNext() tea.Msg`. -/
def Model.MoveToNext (m : Model) (g : Globals) : Except Abort (Msg × Model × Globals) := do
  let focusedList ← listAt m.lists m.focused
  match focusedList.SelectedItem with
  | none => pure (Msg.nil, m, g)
  | some selectedTask =>
    let src ← listAt m.lists selectedTask.status
    let lists1 := listSet m.lists selectedTask.status (src.RemoveItem focusedList.Index)
    let selectedTask := selectedTask.Next
    let dst ← listAt lists1 selectedTask.status
    let lists2 := listSet lists1 selectedTask.status
      (dst.InsertItem ((dst.Items.length : Int) - 1) selectedTask)
    let r := g.conn.Exec (.update selectedTask.status selectedTask.id)
    if r.1 then
      pure (Msg.nil, { m with lists := lists2 },
        { g with conn := r.2, stderr := g.stderr ++ ["Error altering task in database"] })
    else
      pure (Msg.movedTaskFn, { m with lists := lists2 }, { g with conn := r.2 })

/-- Go: `func (m *Model) Delete() tea.Msg`. -/
def Model.Delete (m : Model) (g : Globals) : Except Abort (Msg × Model × Globals) := do
  let focusedList ← listAt m.lists m.focused
  match focusedList.SelectedItem with
  | none => pure (Msg.nil, m, g)
  | some selectedTask =>
    let src ← listAt m.lists selectedTask.status
    let lists1 := listSet m.lists selectedTask.status (src.RemoveItem focusedList.Index)
    let r := g.conn.Exec (.delete selectedTask.id)
    if r.1 then
      pure (Msg.nil, { m with lists := lists1 },
        { g with conn := r.2, stderr := g.stderr ++ ["Error altering task in database"] })
    else
      pure (Msg.deletedTaskFn, { m with lists := lists1 }, { g with conn := r.2 })

/-- Go: `fetchTasks`; a failing query writes a diagnostic and calls `os.Exit(1)`. -/
def fetchTasks (g : Globals) (s : status) : Except Abort (List Task × Globals) :=
  match g.conn.Query s with
  | (none, _) => throw (Abort.exit 1)
  | (some tasks, c1) => pure (tasks, { g with conn := c1 })

/-- Go: `func (m *Model) initLists(w, h int)`. -/
def Model.initLists (m : Model) (g : Globals) (w h : Int) : Except Abort (Model × Globals) := do
  let defaultList := ListModel.New [] (Int.tdiv w divisor) (h - divisor * 3)
  let lists := [defaultList, defaultList, defaultList]
  let l0 ← listAt lists todo
  let lists := listSet lists todo { l0 with Title := "To do" }
  let (todoItems, g) ← fetchTasks g todo
  let l0 ← listAt lists todo
  let lists := listSet lists todo (l0.SetItems todoItems)
  let l1 ← listAt lists inProgress
  let lists := listSet lists inProgress { l1 with Title := "In Progress" }
  let (inPItems, g) ← fetchTasks g inProgress
  let l1 ← listAt lists inProgress
  let lists := listSet lists inProgress (l1.SetItems inPItems)
  let l2 ← listAt lists done
  let lists := listSet lists done { l2 with Title := "Done" }
  let (doneItems, g) ← fetchTasks g done
  let l2 ← listAt lists done
  let lists := listSet lists done (l2.SetItems doneItems)
  pure ({ m with lists := lists }, g)

/-! ## Form -/

/-- Go: `func (m Form) CreateTask() tea.Msg`. -/
def Form.CreateTask (m : Form) (g : Globals) : Msg × Globals :=
  let task := NewTask m.focused m.title.Value m.description.Value
  let r := g.conn.Exec (.insert task.status task.title task.description)
  if r.1 then
    (Msg.nil, { g with conn := r.2, stderr := g.stderr ++ ["Error inserting task into database"] })
  else
    (Msg.task task, { g with conn := r.2 })

/-- Go: `func (m Form) Update(msg tea.Msg) (tea.Model, tea.Cmd)`. -/
def Form.Update (c : Collab) (m : Form) (g : Globals) (msg : Msg) : TeaModel × Cmd × Globals :=
  let forward (m : Form) : TeaModel × Cmd × Globals :=
    if m.title.Focused then
      (TeaModel.form { m with title := c.textinputUpdate m.title msg }, Cmd.widget, g)
    else
      (TeaModel.form { m with description := c.textareaUpdate m.description msg }, Cmd.widget, g)
  match msg with
  | .KeyMsg s =>
    if s = "ctrl+c" ∨ s = "q" then (TeaModel.form m, Cmd.Quit, g)
    else if s = "enter" then
      if m.title.Focused then
        (TeaModel.form { m with title := m.title.Blur, description := m.description.Focus },
          Cmd.Blink, g)
      else
        (g.models.kan, Cmd.CreateTask m,
          { g with models := { g.models with form := TeaModel.form m } })
    else forward m
  | _ => forward m

/-- Go: `func (m Model) Update(msg tea.Msg) (tea.Model, tea.Cmd)`. -/
def Model.Update (c : Collab) (m : Model) (g : Globals) (msg : Msg) :
    Except Abort (TeaModel × Cmd × Globals) :=
  let forward (m : Model) (g : Globals) : Except Abort (TeaModel × Cmd × Globals) := do
    let l ← listAt m.lists m.focused
    pure (TeaModel.board { m with lists := listSet m.lists m.focused (l.Update c msg) },
      Cmd.widget, g)
  match msg with
  | .WindowSizeMsg w h => do
    let (m, g) ← m.initLists g w h
    let m := if !m.loaded then { m with loaded := true } else m
    forward m g
  | .KeyMsg s =>
    if s = "ctrl+c" ∨ s = "q" then pure (TeaModel.board { m with quitting := true }, Cmd.Quit, g)
    else if s = "left" ∨ s = "h" then forward m.Prev g
    else if s = "right" ∨ s = "l" then forward m.Next g
    else if s = "enter" then pure (TeaModel.board m, Cmd.MoveToNext, g)
    else if s = "delete" then pure (TeaModel.board m, Cmd.Delete, g)
    else if s = "n" then
      let g := { g with models := { g.models with kan := TeaModel.board m } }
      let g := { g with models := { g.models with form := TeaModel.form (NewForm m.focused) } }
      pure (Form.Update c (NewForm m.focused) g Msg.nil)
    else forward m g
  | .task task => do
    let l ← listAt m.lists task.status
    pure (TeaModel.board
      { m with lists := listSet m.lists task.status (l.InsertItem (l.Items.length : Int) task) },
      l.filterCmd, g)
  | .MovedTaskMsg => pure (TeaModel.board m, Cmd.nil, g)
  | _ => forward m g

/-- Go: the `Update` method of whichever model is behind the `tea.Model`. -/
def TeaModel.Update (c : Collab) (t : TeaModel) (g : Globals) (msg : Msg) :
    Except Abort (TeaModel × Cmd × Globals) :=
  match t with
  | .board m => Model.Update c m g msg
  | .form f => pure (Form.Update c f g msg)

/-! ## Running a command -/

/-- The run-time executes the command returned by an `Update` and obtains its
message.  `m.MoveToNext` and `m.Delete` work on the lists of the board that
`Update` returned (the copy they are bound to shares its `lists` slice with it),
so the board after the command is the active model. -/
def runCmd (cmd : Cmd) (active : TeaModel) (g : Globals) :
    Except Abort (Msg × TeaModel × Globals) :=
  match cmd, active with
  | .MoveToNext, .board m => do
    let (msg, m, g) ← m.MoveToNext g
    pure (msg, TeaModel.board m, g)
  | .Delete, .board m => do
    let (msg, m, g) ← m.Delete g
    pure (msg, TeaModel.board m, g)
  | .CreateTask f, t =>
    let r := f.CreateTask g
    pure (r.1, t, r.2)
  | _, t => pure (Msg.nil, t, g)

/-- One event: `Update` of the active model, then the returned command, then (the
run-time drops a nil message) `Update` of the active model with the message of
the command.  The result is the active model and the globals afterwards. -/
def handle (c : Collab) (active : TeaModel) (g : Globals) (msg : Msg) :
    Except Abort (TeaModel × Globals) := do
  let (t, cmd, g) ← active.Update c g msg
  let (msg, t, g) ← runCmd cmd t g
  if msg = Msg.nil then pure (t, g)
  else
    let (t, _, g) ← t.Update c g msg
    pure (t, g)

/-! ## Operations of the board and the form as the design names them -/

/-- Initialize: the board receives its first `tea.WindowSizeMsg` and seeds its
three lists from the store. -/
def Initialize (c : Collab) (m : Model) (g : Globals) (w h : Int) :
    Except Abort (TeaModel × Globals) :=
  handle c (TeaModel.board m) g (Msg.WindowSizeMsg w h)

/-- Submit: the key "enter" reaches the form, then the returned command
(`m.CreateTask` once the description is active) runs and its message is handled
by the active model. -/
def Submit (c : Collab) (f : Form) (g : Globals) : Except Abort (TeaModel × Globals) :=
  handle c (TeaModel.form f) g (Msg.KeyMsg "enter")

/-- The items of column `i` of the board (empty when there is no such list). -/
def Model.column (m : Model) (i : status) : List Task :=
  match listAt m.lists i with
  | .ok l => l.items
  | .error _ => []

/-- The items of column `i` when the active model is the board. -/
def TeaModel.column (t : TeaModel) (i : status) : List Task :=
  match t with
  | .board m => m.column i
  | .form _ => []

/-- Every item of the list, and every filtered item it shows, has status `i`. -/
def colOk (i : status) (l : ListModel) : Bool :=
  l.items.all (fun t => decide (t.status = i)) &&
    l.filteredItems.all (fun t => decide (t.status = i))

/-- A seeded board: three lists, the focus on one of the three statuses, and every
item of list `i` has status `i`. -/
def Model.WF (m : Model) : Bool :=
  match m.lists with
  | [l0, l1, l2] =>
    decide (0 ≤ m.focused ∧ m.focused ≤ 2) && colOk todo l0 && colOk inProgress l1 && colOk done l2
  | _ => false

/-- The events of the board that change focus, columns, cursor or filter.
`Cursor k` is a list-navigation key after which the widget reports the cursor of
the focused list at index `k`; `ListEvent r` is any key or widget message that
`Model.Update` forwards to the focused list (a filter being opened, typed, applied
or reset, its matches arriving), after which the list is as `r` says. -/
inductive BoardOp where
  | MoveSelectedForward
  | DeleteSelected
  | AcceptCreatedItem (t : Task)
  | FocusNext
  | FocusPrev
  | Cursor (k : Nat)
  | ListEvent (r : ListReaction)
deriving DecidableEq, Repr

/-- One board event, through `Model.Update` and the command it returns. -/
def applyOp (c : Collab) (op : BoardOp) (t : TeaModel) (g : Globals) :
    Except Abort (TeaModel × Globals) :=
  match op with
  | .MoveSelectedForward => handle c t g (Msg.KeyMsg "enter")
  | .DeleteSelected => handle c t g (Msg.KeyMsg "delete")
  | .AcceptCreatedItem task => handle c t g (Msg.task task)
  | .FocusNext => handle c t g (Msg.KeyMsg "right")
  | .FocusPrev => handle c t g (Msg.KeyMsg "left")
  | .Cursor k =>
    handle { c with listUpdate := fun l _ => ⟨k, l.filterState, none⟩ } t g (Msg.KeyMsg "down")
  | .ListEvent r => handle { c with listUpdate := fun _ _ => r } t g (Msg.KeyMsg "down")

/-- A sequence of board events, one after the other. -/
def runOps (c : Collab) : List BoardOp → TeaModel → Globals → Except Abort (TeaModel × Globals)
  | [], t, g => pure (t, g)
  | op :: ops, t, g => do
    let (t, g) ← applyOp c op t g
    runOps c ops t g

/-- A sequence of FocusNext (`true`) and FocusPrev (`false`) steps. -/
def focusRun (m : Model) (steps : List Bool) : Model :=
  steps.foldl (fun m b => if b then m.Next else m.Prev) m

/-- Initialize on the board as `main` creates it, then a sequence of board events. -/
def boardRun (c : Collab) (g : Globals) (w h : Int) (ops : List BoardOp) :
    Except Abort (TeaModel × Globals) := do
  let (t, g) ← Initialize c New g w h
  runOps c ops t g

/-- A sequence of messages, each handled by the model that is active when it
arrives. -/
def runMsgs (c : Collab) : List Msg → TeaModel → Globals → Except Abort (TeaModel × Globals)
  | [], t, g => pure (t, g)
  | msg :: msgs, t, g => do
    let (t, g) ← handle c t g msg
    runMsgs c msgs t g

/-! ## Concrete collaborators and states used as test inputs -/

/-- A text widget that appends a typed character when it has the input focus. -/
def typing (t : TextField) : Msg → TextField
  | .KeyMsg s => if t.focus ∧ s.length = 1 then { t with value := t.value ++ s } else t
  | _ => t

/-- A list widget for the test inputs.  The key "/" opens the filter: every item is
shown and the cursor goes to the top.  A character typed while the filter is open
keeps the items whose title contains it (the filter text of the test inputs is one
character long).  Any other message leaves the list as it is. -/
def demoListUpdate (l : ListModel) : Msg → ListReaction
  | .KeyMsg s =>
    if s = "/" then ⟨0, FilterState.Filtering, some (List.range l.items.length)⟩
    else if l.filterState = FilterState.Filtering ∧ s.length = 1 then
      ⟨l.index, FilterState.Filtering,
        some ((List.range l.items.length).filter (fun p =>
          match l.items[p]? with
          | some t => s.data.all (fun ch => t.title.data.contains ch)
          | none => false))⟩
    else ⟨l.index, l.filterState, none⟩
  | _ => ⟨l.index, l.filterState, none⟩

/-- Widgets for the test inputs: the list of `demoListUpdate`, text widgets that
append typed characters. -/
def demoCollab : Collab :=
  { listUpdate := demoListUpdate, textinputUpdate := typing, textareaUpdate := typing }

/-- An empty table whose first inserted row gets identifier 1, every call
succeeding; `models` as `main` sets it. -/
def emptyGlobals : Globals :=
  { conn := { rows := [], nextId := 1, script := [], calls := [] },
    models := { kan := TeaModel.board New, form := TeaModel.form (NewForm todo) },
    stderr := [] }

/-- As `emptyGlobals`, but the fourth call on the connection (the first one after
the three queries of Initialize) fails. -/
def failingGlobals : Globals :=
  { emptyGlobals with conn := { emptyGlobals.conn with script := [true, true, true, false] } }

/-- A table with a task in todo and a task in progress; the fifth call on the
connection fails. -/
def demoGlobals : Globals :=
  { emptyGlobals with
    conn := { rows := [⟨1, todo, "A", "a"⟩, ⟨2, inProgress, "B", "b"⟩], nextId := 3,
              script := [true, true, true, true, false], calls := [] } }

/-- A list of the given items with the cursor on the first one. -/
def demoList (items : List Task) : ListModel := ListModel.New items 40 18

/-- A seeded board: one task in todo (selected), one in progress, one done. -/
def demoBoard : Model :=
  { focused := todo,
    lists := [demoList [⟨7, todo, "A", "a"⟩], demoList [⟨8, inProgress, "B", "b"⟩],
      demoList [⟨9, done, "C", "c"⟩]],
    loaded := true, quitting := false }

/-- The same board with the focus on the done column. -/
def demoBoardDone : Model := { demoBoard with focused := done }

/-- A seeded board whose focused column (done) is empty. -/
def demoBoardEmptyDone : Model :=
  { focused := done,
    lists := [demoList [⟨7, todo, "A", "a"⟩], demoList [⟨8, inProgress, "B", "b"⟩], demoList []],
    loaded := true, quitting := false }

/-- The keys of a session that creates a task: open the form, type the title "a",
go to the description, type "b". -/
def createKeys : List Msg :=
  [Msg.KeyMsg "n", Msg.KeyMsg "a", Msg.KeyMsg "enter", Msg.KeyMsg "b"]

/-- A session on the given globals: the board is seeded, then the form is opened
and filled in (title "a", description "b"); Submit has not been issued yet. -/
def formSession (g : Globals) : Except Abort (TeaModel × Globals) :=
  runMsgs demoCollab (Msg.WindowSizeMsg 80 24 :: createKeys) (TeaModel.board New) g

/-- The session continued by Submit. -/
def submitSession (g : Globals) : Except Abort (TeaModel × Globals) :=
  runMsgs demoCollab (Msg.WindowSizeMsg 80 24 :: createKeys ++ [Msg.KeyMsg "enter"])
    (TeaModel.board New) g

/-- The board right after Initialize on an empty table, in a window of 80 by 24. -/
def emptyBoard : Model :=
  { focused := todo,
    lists := [{ ListModel.New [] 40 18 with Title := "To do" },
      { ListModel.New [] 40 18 with Title := "In Progress" },
      { ListModel.New [] 40 18 with Title := "Done" }],
    loaded := true, quitting := false }

/-- The form of `formSession`: target column todo, title "a", description "b", the
description field active. -/
def filledForm : Form :=
  { focused := todo, title := ⟨"a", false⟩, description := ⟨"b", true⟩ }

/-- The globals of `formSession` on `emptyGlobals`: the three queries of
Initialize are logged and `models[kan]` holds the seeded board. -/
def formGlobals : Globals :=
  { conn := { rows := [], nextId := 1, script := [],
              calls := [StoreCall.select todo, StoreCall.select inProgress, StoreCall.select done] },
    models := { kan := TeaModel.board emptyBoard, form := TeaModel.form (NewForm todo) },
    stderr := [] }

/-- The globals of `formSession` on `failingGlobals`: the next call fails. -/
def formGlobalsFailing : Globals :=
  { formGlobals with conn := { formGlobals.conn with script := [false] } }

/-- A sequence of board events: two moves (the second one meets the failing call of
`demoGlobals`), a created task for the done column, a delete, focus changes, and
a filter on the done column followed by a move out of it. -/
def demoOps : List BoardOp :=
  [BoardOp.MoveSelectedForward, BoardOp.FocusNext, BoardOp.MoveSelectedForward,
    BoardOp.AcceptCreatedItem ⟨0, done, "N", "n"⟩, BoardOp.Cursor 0, BoardOp.DeleteSelected,
    BoardOp.FocusNext, BoardOp.ListEvent ⟨0, FilterState.Filtering, some [1]⟩,
    BoardOp.MoveSelectedForward, BoardOp.FocusPrev]

/-- A table with the tasks A (id 7) and B (id 10), both todo; every call succeeds. -/
def twoTodoGlobals : Globals :=
  { emptyGlobals with
    conn := { rows := [⟨7, todo, "A", "a"⟩, ⟨10, todo, "B", "b"⟩], nextId := 11,
              script := [], calls := [] } }

/-- The keys that seed the board and filter the focused column by the text "B". -/
def filterKeys : List Msg :=
  [Msg.WindowSizeMsg 80 24, Msg.KeyMsg "/", Msg.KeyMsg "B"]

/-- The board after `filterKeys` over `twoTodoGlobals`: todo holds A and B, the
filter shows B alone and the cursor is on it. -/
def filteredBoard : Model :=
  { focused := todo,
    lists := [{ ListModel.New [⟨7, todo, "A", "a"⟩, ⟨10, todo, "B", "b"⟩] 40 18 with
                Title := "To do", filterState := FilterState.Filtering,
                filteredItems := [⟨10, todo, "B", "b"⟩] },
      { ListModel.New [] 40 18 with Title := "In Progress" },
      { ListModel.New [] 40 18 with Title := "Done" }],
    loaded := true, quitting := false }

/-- The globals after `filterKeys` over `twoTodoGlobals`: the three queries of
Initialize are logged. -/
def filteredGlobals : Globals :=
  { twoTodoGlobals with
    conn := { twoTodoGlobals.conn with
              calls := [StoreCall.select todo, StoreCall.select inProgress,
                StoreCall.select done] } }

/-! ## Focus -/

theorem Next_focused_mem (m : Model)
    (h : m.focused = todo ∨ m.focused = inProgress ∨ m.focused = done) :
    m.Next.focused = todo ∨ m.Next.focused = inProgress ∨ m.Next.focused = done := by
  simp only [Model.Next, todo, inProgress, done] at *
  rcases h with h | h | h <;> simp [h]

theorem Prev_focused_mem (m : Model)
    (h : m.focused = todo ∨ m.focused = inProgress ∨ m.focused = done) :
    m.Prev.focused = todo ∨ m.Prev.focused = inProgress ∨ m.Prev.focused = done := by
  simp only [Model.Prev, todo, inProgress, done] at *
  rcases h with h | h | h <;> simp [h]

theorem focusRun_mem (steps : List Bool) (m : Model)
    (h : m.focused = todo ∨ m.focused = inProgress ∨ m.focused = done) :
    (focusRun m steps).focused = todo ∨ (focusRun m steps).focused = inProgress ∨
      (focusRun m steps).focused = done := by
  induction steps generalizing m with
  | nil => simpa [focusRun] using h
  | cons b rest ih =>
    cases b
    · simpa [focusRun] using ih m.Prev (Prev_focused_mem m h)
    · simpa [focusRun] using ih m.Next (Next_focused_mem m h)

/-- C8: for a focus on one of the three statuses, FocusNext (`Model.Next`) yields
(focus+1) mod 3 and FocusPrev (`Model.Prev`) yields (focus+2) mod 3; each undoes
the other; three FocusNext steps come back to the start and the three focus values
met on the way are todo, in progress and done, each once; the keys "right" and
"left" of a seeded board perform exactly these steps; and any sequence of
FocusNext/FocusPrev from the initial board keeps the focus on one of the three
statuses. -/
theorem focus_cycle (m : Model)
    (h : m.focused = todo ∨ m.focused = inProgress ∨ m.focused = done) :
    m.Next.focused = (m.focused + 1) % 3 ∧
    m.Prev.focused = (m.focused + 2) % 3 ∧
    m.Next.Prev = m ∧ m.Prev.Next = m ∧
    m.Next.Next.Next = m ∧
    List.Perm [m.focused, m.Next.focused, m.Next.Next.focused] [todo, inProgress, done] ∧
    (∀ (c : Collab) (g : Globals), m.lists.length = 3 →
      (∃ m1, Model.Update c m g (Msg.KeyMsg "right") = .ok (TeaModel.board m1, Cmd.widget, g) ∧
        m1.focused = m.Next.focused) ∧
      (∃ m1, Model.Update c m g (Msg.KeyMsg "left") = .ok (TeaModel.board m1, Cmd.widget, g) ∧
        m1.focused = m.Prev.focused)) ∧
    (∀ steps : List Bool,
      (focusRun New steps).focused = todo ∨ (focusRun New steps).focused = inProgress ∨
        (focusRun New steps).focused = done) := by
  obtain ⟨foc, lists, ld, q⟩ := m
  simp only [todo, inProgress, done] at h
  refine ⟨?_, ?_, ?_, ?_, ?_, ?_, ?_, ?_⟩
  · rcases h with h | h | h <;> subst h <;> simp [Model.Next, done, todo]
  · rcases h with h | h | h <;> subst h <;> simp [Model.Prev, done, todo]
  · rcases h with h | h | h <;> subst h <;> simp [Model.Next, Model.Prev, done, todo]
  · rcases h with h | h | h <;> subst h <;> simp [Model.Next, Model.Prev, done, todo]
  · rcases h with h | h | h <;> subst h <;> simp [Model.Next, done, todo]
  · rcases h with h | h | h <;> subst h <;> simp [Model.Next, done, todo, inProgress] <;> decide
  · intro c g hlen
    match lists, hlen with
    | [l0, l1, l2], _ =>
      rcases h with h | h | h <;> subst h <;>
        simp [Model.Update, Model.Next, Model.Prev, done, todo, listAt, listSet, pure, Except.pure,
          bind, Except.bind]
  · intro steps
    exact focusRun_mem steps New (Or.inl rfl)

/-- Witness for C8: the board focused on done. -/
theorem focus_cycle_witness :
    (demoBoardDone.focused = todo ∨ demoBoardDone.focused = inProgress ∨
      demoBoardDone.focused = done) ∧
    demoBoardDone.Next.focused = (demoBoardDone.focused + 1) % 3 ∧
    demoBoardDone.Prev.focused = (demoBoardDone.focused + 2) % 3 ∧
    demoBoardDone.Next.Next.Next = demoBoardDone :=
  ⟨Or.inr (Or.inr rfl),
   (focus_cycle demoBoardDone (Or.inr (Or.inr rfl))).1,
   (focus_cycle demoBoardDone (Or.inr (Or.inr rfl))).2.1,
   (focus_cycle demoBoardDone (Or.inr (Or.inr rfl))).2.2.2.2.1⟩

/-! ## Selection, move, delete: auxiliary facts -/

theorem int_range (a : Int) (h0 : 0 ≤ a) (h2 : a ≤ 2) : a = 0 ∨ a = 1 ∨ a = 2 := by omega

theorem SelectedItem_some (l : ListModel) (x : Task) (h : l.SelectedItem = some x) :
    x ∈ l.VisibleItems ∧ l.index < l.VisibleItems.length := by
  unfold ListModel.SelectedItem ListModel.Index at h
  split at h
  · cases h
  · rename_i hn
    exact ⟨List.getElem?_mem h, Nat.lt_of_not_le (not_or.mp hn).2⟩

theorem VisibleItems_unfiltered (l : ListModel) (h : l.filterState = FilterState.Unfiltered) :
    l.VisibleItems = l.items := by
  simp [ListModel.VisibleItems, h]

theorem colOk_iff (i : status) (l : ListModel) :
    colOk i l = true ↔
      (∀ x ∈ l.items, x.status = i) ∧ (∀ x ∈ l.filteredItems, x.status = i) := by
  simp [colOk, List.all_eq_true]

theorem colOk_status (i : status) (l : ListModel) (x : Task) (h : colOk i l = true)
    (hx : x ∈ l.items) : x.status = i :=
  ((colOk_iff i l).mp h).1 x hx

theorem colOk_visible (i : status) (l : ListModel) (x : Task) (h : colOk i l = true)
    (hx : x ∈ l.VisibleItems) : x.status = i := by
  unfold ListModel.VisibleItems at hx
  split at hx
  · exact ((colOk_iff i l).mp h).2 x hx
  · exact ((colOk_iff i l).mp h).1 x hx

theorem WF_shape (m : Model) (h : m.WF = true) :
    ∃ l0 l1 l2, m.lists = [l0, l1, l2] ∧ (m.focused = 0 ∨ m.focused = 1 ∨ m.focused = 2) ∧
      colOk 0 l0 = true ∧ colOk 1 l1 = true ∧ colOk 2 l2 = true := by
  obtain ⟨foc, lists, ld, q⟩ := m
  match lists, h with
  | [l0, l1, l2], h =>
    simp only [Model.WF, Bool.and_eq_true, decide_eq_true_eq] at h
    obtain ⟨⟨⟨⟨hlo, hhi⟩, h0⟩, h1⟩, h2⟩ := h
    exact ⟨l0, l1, l2, rfl, int_range foc hlo hhi, h0, h1, h2⟩

theorem WF_intro (foc : status) (l0 l1 l2 : ListModel) (ld q : Bool)
    (hf : foc = 0 ∨ foc = 1 ∨ foc = 2) (h0 : colOk 0 l0 = true) (h1 : colOk 1 l1 = true)
    (h2 : colOk 2 l2 = true) :
    Model.WF { focused := foc, lists := [l0, l1, l2], loaded := ld, quitting := q } = true := by
  simp only [Model.WF, Bool.and_eq_true, decide_eq_true_eq]
  refine ⟨⟨⟨?_, h0⟩, h1⟩, h2⟩
  rcases hf with hf | hf | hf <;> subst hf <;> decide

theorem Exec_calls (c : Conn) (call : StoreCall) :
    (c.Exec call).2.calls = c.calls ++ [call] := by
  unfold Conn.Exec
  split <;> rfl

theorem insertItemIntoSlice_perm (items : List Task) (x : Task) (i : Int) :
    List.Perm (insertItemIntoSlice items x i) (x :: items) := by
  unfold insertItemIntoSlice
  split
  · exact List.perm_append_singleton x items
  · have h := @List.perm_middle Task x (items.take (max 0 i).toNat)
      (items.drop (max 0 i).toNat)
    simpa using h

theorem insertItemIntoSlice_mem (items : List Task) (x : Task) (i : Int) :
    x ∈ insertItemIntoSlice items x i :=
  (insertItemIntoSlice_perm items x i).symm.subset (List.mem_cons_self x items)

theorem removeItemFromSlice_lt (items : List Task) (i : Nat) (h : i < items.length) :
    removeItemFromSlice items i = items.eraseIdx i := by
  simp [removeItemFromSlice, Nat.not_le.mpr h]

theorem removeItemFromSlice_subset (items : List Task) (i : Nat) (x : Task)
    (hx : x ∈ removeItemFromSlice items i) : x ∈ items := by
  unfold removeItemFromSlice at hx
  split at hx
  · exact hx
  · exact List.mem_of_mem_eraseIdx hx

theorem RemoveItem_items (l : ListModel) (k : Nat) :
    (l.RemoveItem k).items = removeItemFromSlice l.items k := by
  unfold ListModel.RemoveItem ListModel.resetFiltering
  simp only
  split
  · split
    · rfl
    · rfl
  · rfl

theorem RemoveItem_filteredItems (l : ListModel) (k : Nat) (x : Task)
    (hx : x ∈ (l.RemoveItem k).filteredItems) : x ∈ l.filteredItems := by
  unfold ListModel.RemoveItem ListModel.resetFiltering at hx
  simp only at hx
  split at hx
  · split at hx
    · cases hx
    · exact removeItemFromSlice_subset _ _ _ hx
  · exact hx

theorem colOk_remove (i : status) (l : ListModel) (k : Nat) (h : colOk i l = true) :
    colOk i (l.RemoveItem k) = true := by
  rw [colOk_iff] at *
  refine ⟨fun x hx => h.1 x ?_, fun x hx => h.2 x (RemoveItem_filteredItems l k x hx)⟩
  rw [RemoveItem_items] at hx
  exact removeItemFromSlice_subset _ _ _ hx

theorem colOk_insert (i : status) (l : ListModel) (k : Int) (x : Task) (h : colOk i l = true)
    (hx : x.status = i) : colOk i (l.InsertItem k x) = true := by
  rw [colOk_iff] at *
  refine ⟨fun y hy => ?_, h.2⟩
  simp only [ListModel.InsertItem] at hy
  have hy2 := (insertItemIntoSlice_perm l.items x k).subset hy
  rcases List.mem_cons.mp hy2 with hy3 | hy3
  · subst hy3
    exact hx
  · exact h.1 y hy3

theorem colOk_Update (c : Collab) (i : status) (l : ListModel) (msg : Msg)
    (h : colOk i l = true) : colOk i (l.Update c msg) = true := by
  rw [colOk_iff] at *
  refine ⟨h.1, fun x hx => ?_⟩
  simp only [ListModel.Update] at hx
  split at hx
  · exact h.2 x hx
  · obtain ⟨p, -, hp⟩ := List.mem_filterMap.mp hx
    exact h.1 x (List.getElem?_mem hp)

theorem colOk_SetItems (i : status) (l : ListModel) (ts : List Task)
    (hf : l.filteredItems = []) (h : ∀ x ∈ ts, x.status = i) :
    colOk i (l.SetItems ts) = true := by
  rw [colOk_iff]
  unfold ListModel.SetItems
  split
  · exact ⟨h, fun x hx => by cases hx⟩
  · refine ⟨h, fun x hx => ?_⟩
    simp only [hf] at hx
    cases hx

/-- With nothing selected in the focused list, `MoveToNext` returns nil and
changes neither the board nor the globals. -/
theorem MoveToNext_none (m : Model) (g : Globals) (l : ListModel)
    (hl : listAt m.lists m.focused = .ok l) (hs : l.SelectedItem = none) :
    m.MoveToNext g = .ok (Msg.nil, m, g) := by
  simp [Model.MoveToNext, hl, hs, bind, Except.bind, pure, Except.pure]

/-- With nothing selected in the focused list, `Delete` returns nil and changes
neither the board nor the globals. -/
theorem Delete_none (m : Model) (g : Globals) (l : ListModel)
    (hl : listAt m.lists m.focused = .ok l) (hs : l.SelectedItem = none) :
    m.Delete g = .ok (Msg.nil, m, g) := by
  simp [Model.Delete, hl, hs, bind, Except.bind, pure, Except.pure]

/-- The run of `MoveToNext` on a selected task whose status is the focused column. -/
theorem MoveToNext_some (m : Model) (g : Globals) (src dst : ListModel) (x : Task)
    (hsrc : listAt m.lists m.focused = .ok src) (hx : src.SelectedItem = some x)
    (hst : x.status = m.focused)
    (hdst : listAt (listSet m.lists m.focused (src.RemoveItem src.Index)) x.Next.status = .ok dst) :
    ∃ msg g1,
      m.MoveToNext g = .ok (msg,
        { m with
          lists := listSet (listSet m.lists m.focused (src.RemoveItem src.Index))
            x.Next.status (dst.InsertItem ((dst.items.length : Int) - 1) x.Next) }, g1) ∧
      (msg = Msg.nil ∨ msg = Msg.movedTaskFn) ∧
      g1.conn = (g.conn.Exec (StoreCall.update x.Next.status x.id)).2 ∧
      g1.models = g.models := by
  have hid : x.Next.id = x.id := by unfold Task.Next; split <;> rfl
  by_cases hr : (g.conn.Exec (StoreCall.update x.Next.status x.id)).1 = true
  · refine ⟨Msg.nil,
      { g with
        conn := (g.conn.Exec (StoreCall.update x.Next.status x.id)).2,
        stderr := g.stderr ++ ["Error altering task in database"] }, ?_, Or.inl rfl, rfl, rfl⟩
    simp [Model.MoveToNext, hsrc, hx, hst, hdst, hr, hid, bind, Except.bind, pure, Except.pure,
      ListModel.Items]
  · refine ⟨Msg.movedTaskFn, { g with conn := (g.conn.Exec (StoreCall.update x.Next.status x.id)).2 },
      ?_, Or.inr rfl, rfl, rfl⟩
    simp [Model.MoveToNext, hsrc, hx, hst, hdst, hr, hid, bind, Except.bind, pure, Except.pure,
      ListModel.Items]

/-- The run of `Delete` on a selected task whose status is the focused column. -/
theorem Delete_some (m : Model) (g : Globals) (src : ListModel) (x : Task)
    (hsrc : listAt m.lists m.focused = .ok src) (hx : src.SelectedItem = some x)
    (hst : x.status = m.focused) :
    ∃ msg g1,
      m.Delete g = .ok (msg,
        { m with lists := listSet m.lists m.focused (src.RemoveItem src.Index) }, g1) ∧
      (msg = Msg.nil ∨ msg = Msg.deletedTaskFn) ∧
      g1.conn = (g.conn.Exec (StoreCall.delete x.id)).2 ∧
      g1.models = g.models := by
  by_cases hr : (g.conn.Exec (StoreCall.delete x.id)).1 = true
  · refine ⟨Msg.nil,
      { g with
        conn := (g.conn.Exec (StoreCall.delete x.id)).2,
        stderr := g.stderr ++ ["Error altering task in database"] }, ?_, Or.inl rfl, rfl, rfl⟩
    simp [Model.Delete, hsrc, hx, hst, hr, bind, Except.bind, pure, Except.pure]
  · refine ⟨Msg.deletedTaskFn, { g with conn := (g.conn.Exec (StoreCall.delete x.id)).2 },
      ?_, Or.inr rfl, rfl, rfl⟩
    simp [Model.Delete, hsrc, hx, hst, hr, bind, Except.bind, pure, Except.pure]

theorem Next_status (x : Task) :
    (x.status = 0 → x.Next.status = 1) ∧ (x.status = 1 → x.Next.status = 2) ∧
      (x.status = 2 → x.Next.status = 0) := by
  refine ⟨?_, ?_, ?_⟩ <;> intro h <;> simp [Task.Next, h, done, todo]

/-- `MoveToNext` on a seeded board returns, and the board it leaves is seeded. -/
theorem MoveToNext_WF (m : Model) (g : Globals) (hwf : m.WF = true) :
    ∃ msg m1 g1, m.MoveToNext g = .ok (msg, m1, g1) ∧ m1.WF = true ∧
      (msg = Msg.nil ∨ msg = Msg.movedTaskFn) := by
  obtain ⟨l0, l1, l2, hl, hf, h0, h1, h2⟩ := WF_shape m hwf
  obtain ⟨foc, lists, ld, q⟩ := m
  simp only at hl hf
  subst hl
  rcases hf with hf | hf | hf <;> subst hf
  · have hsrc : listAt [l0, l1, l2] 0 = .ok l0 := by simp [listAt, pure, Except.pure]
    cases hs : l0.SelectedItem with
    | none => exact ⟨_, _, _, MoveToNext_none _ g l0 hsrc hs, hwf, Or.inl rfl⟩
    | some x =>
      have hst : x.status = 0 := colOk_visible _ _ _ h0 (SelectedItem_some _ _ hs).1
      have hn := (Next_status x).1 hst
      obtain ⟨msg, g1, hrun, hmsg, -, -⟩ := MoveToNext_some
        { focused := 0, lists := [l0, l1, l2], loaded := ld, quitting := q } g l0 l1 x hsrc hs hst
        (by simp [listAt, listSet, hn, pure, Except.pure])
      refine ⟨_, _, _, hrun, ?_, hmsg⟩
      simp only [hn, listSet]
      exact WF_intro _ _ _ _ _ _ (Or.inl rfl) (colOk_remove _ _ _ h0)
        (colOk_insert _ _ _ _ h1 hn) h2
  · have hsrc : listAt [l0, l1, l2] 1 = .ok l1 := by simp [listAt, pure, Except.pure]
    cases hs : l1.SelectedItem with
    | none => exact ⟨_, _, _, MoveToNext_none _ g l1 hsrc hs, hwf, Or.inl rfl⟩
    | some x =>
      have hst : x.status = 1 := colOk_visible _ _ _ h1 (SelectedItem_some _ _ hs).1
      have hn := (Next_status x).2.1 hst
      obtain ⟨msg, g1, hrun, hmsg, -, -⟩ := MoveToNext_some
        { focused := 1, lists := [l0, l1, l2], loaded := ld, quitting := q } g l1 l2 x hsrc hs hst
        (by simp [listAt, listSet, hn, pure, Except.pure])
      refine ⟨_, _, _, hrun, ?_, hmsg⟩
      simp only [hn, listSet]
      exact WF_intro _ _ _ _ _ _ (Or.inr (Or.inl rfl)) h0 (colOk_remove _ _ _ h1)
        (colOk_insert _ _ _ _ h2 hn)
  · have hsrc : listAt [l0, l1, l2] 2 = .ok l2 := by simp [listAt, pure, Except.pure]
    cases hs : l2.SelectedItem with
    | none => exact ⟨_, _, _, MoveToNext_none _ g l2 hsrc hs, hwf, Or.inl rfl⟩
    | some x =>
      have hst : x.status = 2 := colOk_visible _ _ _ h2 (SelectedItem_some _ _ hs).1
      have hn := (Next_status x).2.2 hst
      obtain ⟨msg, g1, hrun, hmsg, -, -⟩ := MoveToNext_some
        { focused := 2, lists := [l0, l1, l2], loaded := ld, quitting := q } g l2 l0 x hsrc hs hst
        (by simp [listAt, listSet, hn, pure, Except.pure])
      refine ⟨_, _, _, hrun, ?_, hmsg⟩
      simp only [hn, listSet]
      exact WF_intro _ _ _ _ _ _ (Or.inr (Or.inr rfl)) (colOk_insert _ _ _ _ h0 hn) h1
        (colOk_remove _ _ _ h2)

/-- `Delete` on a seeded board returns, and the board it leaves is seeded. -/
theorem Delete_WF (m : Model) (g : Globals) (hwf : m.WF = true) :
    ∃ msg m1 g1, m.Delete g = .ok (msg, m1, g1) ∧ m1.WF = true ∧
      (msg = Msg.nil ∨ msg = Msg.deletedTaskFn) := by
  obtain ⟨l0, l1, l2, hl, hf, h0, h1, h2⟩ := WF_shape m hwf
  obtain ⟨foc, lists, ld, q⟩ := m
  simp only at hl hf
  subst hl
  rcases hf with hf | hf | hf <;> subst hf
  · have hsrc : listAt [l0, l1, l2] 0 = .ok l0 := by simp [listAt, pure, Except.pure]
    cases hs : l0.SelectedItem with
    | none => exact ⟨_, _, _, Delete_none _ g l0 hsrc hs, hwf, Or.inl rfl⟩
    | some x =>
      have hst : x.status = 0 := colOk_visible _ _ _ h0 (SelectedItem_some _ _ hs).1
      obtain ⟨msg, g1, hrun, hmsg, -, -⟩ := Delete_some
        { focused := 0, lists := [l0, l1, l2], loaded := ld, quitting := q } g l0 x hsrc hs hst
      refine ⟨_, _, _, hrun, ?_, hmsg⟩
      simp only [listSet]
      exact WF_intro _ _ _ _ _ _ (Or.inl rfl) (colOk_remove _ _ _ h0) h1 h2
  · have hsrc : listAt [l0, l1, l2] 1 = .ok l1 := by simp [listAt, pure, Except.pure]
    cases hs : l1.SelectedItem with
    | none => exact ⟨_, _, _, Delete_none _ g l1 hsrc hs, hwf, Or.inl rfl⟩
    | some x =>
      have hst : x.status = 1 := colOk_visible _ _ _ h1 (SelectedItem_some _ _ hs).1
      obtain ⟨msg, g1, hrun, hmsg, -, -⟩ := Delete_some
        { focused := 1, lists := [l0, l1, l2], loaded := ld, quitting := q } g l1 x hsrc hs hst
      refine ⟨_, _, _, hrun, ?_, hmsg⟩
      simp only [listSet]
      exact WF_intro _ _ _ _ _ _ (Or.inr (Or.inl rfl)) h0 (colOk_remove _ _ _ h1) h2
  · have hsrc : listAt [l0, l1, l2] 2 = .ok l2 := by simp [listAt, pure, Except.pure]
    cases hs : l2.SelectedItem with
    | none => exact ⟨_, _, _, Delete_none _ g l2 hsrc hs, hwf, Or.inl rfl⟩
    | some x =>
      have hst : x.status = 2 := colOk_visible _ _ _ h2 (SelectedItem_some _ _ hs).1
      obtain ⟨msg, g1, hrun, hmsg, -, -⟩ := Delete_some
        { focused := 2, lists := [l0, l1, l2], loaded := ld, quitting := q } g l2 x hsrc hs hst
      refine ⟨_, _, _, hrun, ?_, hmsg⟩
      simp only [listSet]
      exact WF_intro _ _ _ _ _ _ (Or.inr (Or.inr rfl)) h0 h1 (colOk_remove _ _ _ h2)

/-- A message that `Model.Update` only forwards to the focused list leaves a seeded
board seeded. -/
theorem forward_WF (c : Collab) (m : Model) (g : Globals) (msg : Msg) (hwf : m.WF = true)
    (hmsg : msg = Msg.movedTaskFn ∨ msg = Msg.deletedTaskFn ∨ msg = Msg.KeyMsg "down") :
    ∃ m1, Model.Update c m g msg = .ok (TeaModel.board m1, Cmd.widget, g) ∧ m1.WF = true := by
  obtain ⟨l0, l1, l2, hl, hf, h0, h1, h2⟩ := WF_shape m hwf
  obtain ⟨foc, lists, ld, q⟩ := m
  simp only at hl hf
  subst hl
  rcases hmsg with hm | hm | hm <;> subst hm <;> rcases hf with hf | hf | hf <;> subst hf <;>
    simp [Model.Update, listAt, listSet, pure, Except.pure, bind, Except.bind] <;>
    apply WF_intro <;>
    first
      | exact colOk_Update _ _ _ _ h0 | exact colOk_Update _ _ _ _ h1
      | exact colOk_Update _ _ _ _ h2 | exact h0 | exact h1 | exact h2 | simp

/-- The keys "right" and "left" leave a seeded board seeded. -/
theorem focus_WF (c : Collab) (m : Model) (g : Globals) (s : String) (hwf : m.WF = true)
    (hs : s = "right" ∨ s = "left") :
    ∃ m1, Model.Update c m g (Msg.KeyMsg s) = .ok (TeaModel.board m1, Cmd.widget, g) ∧
      m1.WF = true := by
  obtain ⟨l0, l1, l2, hl, hf, h0, h1, h2⟩ := WF_shape m hwf
  obtain ⟨foc, lists, ld, q⟩ := m
  simp only at hl hf
  subst hl
  rcases hs with hm | hm <;> subst hm <;> rcases hf with hf | hf | hf <;> subst hf <;>
    simp [Model.Update, Model.Next, Model.Prev, done, todo, listAt, listSet, pure, Except.pure,
      bind, Except.bind] <;>
    apply WF_intro <;>
    first
      | exact colOk_Update _ _ _ _ h0 | exact colOk_Update _ _ _ _ h1
      | exact colOk_Update _ _ _ _ h2 | exact h0 | exact h1 | exact h2 | simp

theorem filterCmd_cases (l : ListModel) : l.filterCmd = Cmd.nil ∨ l.filterCmd = Cmd.widget := by
  unfold ListModel.filterCmd
  split
  · exact Or.inr rfl
  · exact Or.inl rfl

/-- Accepting a task: when `Update` returns, the board it returns is seeded. -/
theorem accept_WF (c : Collab) (m : Model) (g : Globals) (t : Task) (hwf : m.WF = true)
    (r : TeaModel × Cmd × Globals) (hr : Model.Update c m g (Msg.task t) = .ok r) :
    ∃ m1 cmd, r = (TeaModel.board m1, cmd, g) ∧ m1.WF = true ∧
      (cmd = Cmd.nil ∨ cmd = Cmd.widget) := by
  obtain ⟨l0, l1, l2, hl, hf, h0, h1, h2⟩ := WF_shape m hwf
  obtain ⟨foc, lists, ld, q⟩ := m
  simp only at hl hf
  subst hl
  obtain ⟨tid, tst, tti, tde⟩ := t
  by_cases hneg : tst < 0
  · simp [Model.Update, listAt, hneg, bind, Except.bind, throw, throwThe, MonadExceptOf.throw] at hr
  · obtain ⟨n, hn⟩ := Int.eq_ofNat_of_zero_le (not_lt.mp hneg)
    subst hn
    match n, hr with
    | 0, hr =>
      simp [Model.Update, listAt, listSet, bind, Except.bind, pure, Except.pure] at hr
      subst hr
      exact ⟨_, _, rfl, WF_intro _ _ _ _ _ _ hf (colOk_insert _ _ _ _ h0 (by simp)) h1 h2,
        filterCmd_cases _⟩
    | 1, hr =>
      simp [Model.Update, listAt, listSet, bind, Except.bind, pure, Except.pure] at hr
      subst hr
      exact ⟨_, _, rfl, WF_intro _ _ _ _ _ _ hf h0 (colOk_insert _ _ _ _ h1 (by simp)) h2,
        filterCmd_cases _⟩
    | 2, hr =>
      simp [Model.Update, listAt, listSet, bind, Except.bind, pure, Except.pure] at hr
      subst hr
      exact ⟨_, _, rfl, WF_intro _ _ _ _ _ _ hf h0 h1 (colOk_insert _ _ _ _ h2 (by simp)),
        filterCmd_cases _⟩
    | k + 3, hr =>
      have e1 : ((k : Int) + 3).toNat = k + 3 := by omega
      have e2 : ¬ ((k : Int) + 3 < 0) := by omega
      simp [Model.Update, listAt, bind, Except.bind, throw, throwThe, MonadExceptOf.throw, e1, e2]
        at hr

/-- Every board event leaves a seeded board a seeded board. -/
theorem applyOp_WF (c : Collab) (op : BoardOp) (m : Model) (g : Globals) (hwf : m.WF = true)
    (r : TeaModel × Globals) (hr : applyOp c op (TeaModel.board m) g = .ok r) :
    ∃ m1, r.1 = TeaModel.board m1 ∧ m1.WF = true := by
  cases op with
  | MoveSelectedForward =>
    obtain ⟨msg, m1, g1, hrun, hwf1, hmsg⟩ := MoveToNext_WF m g hwf
    rcases hmsg with hmsg | hmsg <;> subst hmsg
    · simp [applyOp, handle, TeaModel.Update, Model.Update, runCmd, hrun, bind, Except.bind, pure,
        Except.pure] at hr
      subst hr
      exact ⟨m1, rfl, hwf1⟩
    · obtain ⟨m2, hfw, hwf2⟩ := forward_WF c m1 g1 Msg.movedTaskFn hwf1 (Or.inl rfl)
      simp [applyOp, handle, TeaModel.Update, Model.Update, runCmd, hrun, bind, Except.bind, pure,
        Except.pure] at hr hfw
      simp [hfw] at hr
      subst hr
      exact ⟨m2, rfl, hwf2⟩
  | DeleteSelected =>
    obtain ⟨msg, m1, g1, hrun, hwf1, hmsg⟩ := Delete_WF m g hwf
    rcases hmsg with hmsg | hmsg <;> subst hmsg
    · simp [applyOp, handle, TeaModel.Update, Model.Update, runCmd, hrun, bind, Except.bind, pure,
        Except.pure] at hr
      subst hr
      exact ⟨m1, rfl, hwf1⟩
    · obtain ⟨m2, hfw, hwf2⟩ := forward_WF c m1 g1 Msg.deletedTaskFn hwf1 (Or.inr (Or.inl rfl))
      simp [applyOp, handle, TeaModel.Update, Model.Update, runCmd, hrun, bind, Except.bind, pure,
        Except.pure] at hr hfw
      simp [hfw] at hr
      subst hr
      exact ⟨m2, rfl, hwf2⟩
  | AcceptCreatedItem t =>
    cases hu : Model.Update c m g (Msg.task t) with
    | error e =>
      simp [applyOp, handle, TeaModel.Update, hu, bind, Except.bind] at hr
    | ok r1 =>
      obtain ⟨m1, cmd, hr1, hwf1, hcmd⟩ := accept_WF c m g t hwf r1 hu
      subst hr1
      rcases hcmd with hcmd | hcmd <;> subst hcmd <;>
        simp [applyOp, handle, TeaModel.Update, hu, runCmd, bind, Except.bind, pure,
          Except.pure] at hr <;>
        subst hr <;> exact ⟨m1, rfl, hwf1⟩
  | FocusNext =>
    obtain ⟨m1, hu, hwf1⟩ := focus_WF c m g "right" hwf (Or.inl rfl)
    simp [applyOp, handle, TeaModel.Update, hu, runCmd, bind, Except.bind, pure,
      Except.pure] at hr
    subst hr
    exact ⟨m1, rfl, hwf1⟩
  | FocusPrev =>
    obtain ⟨m1, hu, hwf1⟩ := focus_WF c m g "left" hwf (Or.inr rfl)
    simp [applyOp, handle, TeaModel.Update, hu, runCmd, bind, Except.bind, pure,
      Except.pure] at hr
    subst hr
    exact ⟨m1, rfl, hwf1⟩
  | Cursor k =>
    obtain ⟨m1, hu, hwf1⟩ := forward_WF { c with listUpdate := fun l _ => ⟨k, l.filterState, none⟩ }
      m g (Msg.KeyMsg "down") hwf (Or.inr (Or.inr rfl))
    simp [applyOp, handle, TeaModel.Update, hu, runCmd, bind, Except.bind, pure,
      Except.pure] at hr
    subst hr
    exact ⟨m1, rfl, hwf1⟩
  | ListEvent r0 =>
    obtain ⟨m1, hu, hwf1⟩ := forward_WF { c with listUpdate := fun _ _ => r0 }
      m g (Msg.KeyMsg "down") hwf (Or.inr (Or.inr rfl))
    simp [applyOp, handle, TeaModel.Update, hu, runCmd, bind, Except.bind, pure,
      Except.pure] at hr
    subst hr
    exact ⟨m1, rfl, hwf1⟩

/-- Every sequence of board events leaves a seeded board a seeded board. -/
theorem runOps_WF (c : Collab) (ops : List BoardOp) (m : Model) (g : Globals)
    (hwf : m.WF = true) (r : TeaModel × Globals)
    (hr : runOps c ops (TeaModel.board m) g = .ok r) :
    ∃ m1, r.1 = TeaModel.board m1 ∧ m1.WF = true := by
  induction ops generalizing m g with
  | nil =>
    simp [runOps, pure, Except.pure] at hr
    subst hr
    exact ⟨m, rfl, hwf⟩
  | cons op ops ih =>
    cases h1 : applyOp c op (TeaModel.board m) g with
    | error e => simp [runOps, h1, bind, Except.bind] at hr
    | ok r1 =>
      obtain ⟨m1, hm1, hwf1⟩ := applyOp_WF c op m g hwf r1 h1
      obtain ⟨t1, g1⟩ := r1
      simp only at hm1
      subst hm1
      simp [runOps, h1, bind, Except.bind] at hr
      exact ih m1 g1 hwf1 hr

theorem fetchTasks_status (g : Globals) (s : status) (ts : List Task) (g1 : Globals)
    (h : fetchTasks g s = .ok (ts, g1)) : ∀ t ∈ ts, t.status = s := by
  unfold fetchTasks Conn.Query at h
  split at h
  · cases h
  · rename_i tasks c1 hq
    simp only [pure, Except.pure, Except.ok.injEq, Prod.mk.injEq] at h
    obtain ⟨h1, -⟩ := h
    subst h1
    split at hq
    · cases hq
    · simp only [Prod.mk.injEq, Option.some.injEq] at hq
      obtain ⟨hq1, -⟩ := hq
      subst hq1
      intro t ht
      simpa using (List.mem_filter.mp ht).2

/-- When `initLists` returns, the board holds three lists and every item of list
`i` has status `i`; the focus is untouched. -/
theorem initLists_WF (m : Model) (g : Globals) (w h : Int) (m1 : Model) (g1 : Globals)
    (hf : m.focused = 0 ∨ m.focused = 1 ∨ m.focused = 2)
    (hr : m.initLists g w h = .ok (m1, g1)) :
    m1.WF = true ∧ m1.focused = m.focused := by
  unfold Model.initLists at hr
  simp only [listAt, listSet, todo, inProgress, done, bind, Except.bind, pure, Except.pure] at hr
  cases h0 : fetchTasks g 0 with
  | error e => simp [h0] at hr
  | ok r0 =>
    obtain ⟨ts0, g0⟩ := r0
    cases h1 : fetchTasks g0 1 with
    | error e => simp [h0, h1] at hr
    | ok r1 =>
      obtain ⟨ts1, g1⟩ := r1
      cases h2 : fetchTasks g1 2 with
      | error e => simp [h0, h1, h2] at hr
      | ok r2 =>
        obtain ⟨ts2, g2⟩ := r2
        simp [h0, h1, h2] at hr
        obtain ⟨hm, -⟩ := hr
        subst hm
        refine ⟨?_, rfl⟩
        apply WF_intro _ _ _ _ _ _ hf
        · exact colOk_SetItems _ _ _ rfl (fetchTasks_status _ _ _ _ h0)
        · exact colOk_SetItems _ _ _ rfl (fetchTasks_status _ _ _ _ h1)
        · exact colOk_SetItems _ _ _ rfl (fetchTasks_status _ _ _ _ h2)

/-- When Initialize returns, the active model is a seeded board. -/
theorem Initialize_WF (c : Collab) (m : Model) (g : Globals) (w h : Int)
    (hf : m.focused = 0 ∨ m.focused = 1 ∨ m.focused = 2)
    (r : TeaModel × Globals) (hr : Initialize c m g w h = .ok r) :
    ∃ m1, r.1 = TeaModel.board m1 ∧ m1.WF = true := by
  cases hi : m.initLists g w h with
  | error e =>
    simp [Initialize, handle, TeaModel.Update, Model.Update, hi, bind, Except.bind] at hr
  | ok r1 =>
    obtain ⟨m1, g1⟩ := r1
    obtain ⟨hwf1, hfoc⟩ := initLists_WF m g w h m1 g1 hf hi
    obtain ⟨l0, l1, l2, hl, hf1, h0, h1, h2⟩ := WF_shape m1 hwf1
    obtain ⟨foc, lists, ld, q⟩ := m1
    simp only at hl hf1
    subst hl
    rcases hf1 with hf1 | hf1 | hf1 <;> subst hf1 <;> cases ld <;>
      simp [Initialize, handle, TeaModel.Update, Model.Update, hi, runCmd, listAt, listSet, bind,
        Except.bind, pure, Except.pure] at hr <;>
      subst hr <;> refine ⟨_, rfl, ?_⟩ <;> apply WF_intro <;>
    first
      | exact colOk_Update _ _ _ _ h0 | exact colOk_Update _ _ _ _ h1
      | exact colOk_Update _ _ _ _ h2 | exact h0 | exact h1 | exact h2 | simp

/-! ## Creating a task -/

/-- C1 (evaluation at a failing input): on an empty table whose next identifier is
1, the form with title "a" and description "b" is submitted and the insert
succeeds.  The store holds the new row under identifier 1, but the `Task` that
`CreateTask` hands to the board, and the entry the todo column gains, carry
identifier 0: the statement sent by `CreateTask` does not read back the
identifier the store assigned. -/
theorem Submit_id_unset :
    formSession emptyGlobals = .ok (TeaModel.form filledForm, formGlobals) ∧
    (∃ g1, filledForm.CreateTask formGlobals = (Msg.task ⟨0, todo, "a", "b"⟩, g1) ∧
      g1.conn.rows = [⟨1, todo, "a", "b"⟩]) ∧
    (∃ t g1, Submit demoCollab filledForm formGlobals = .ok (t, g1) ∧
      g1.conn.rows = [⟨1, todo, "a", "b"⟩] ∧
      t.column todo = [⟨0, todo, "a", "b"⟩] ∧
      t.column inProgress = [] ∧ t.column done = []) :=
  ⟨rfl, ⟨_, rfl, rfl⟩, ⟨_, _, rfl, rfl, rfl, rfl, rfl⟩⟩

/-! ## Moving to the end of the destination column -/

/-- C2 (evaluation at a failing input): the selected todo task A is moved into a
column that already holds B, and the selected done task C into a column that
already holds A; in both cases the moved task is placed before the last item of
the destination column, which stays last. -/
theorem MoveToNext_before_last :
    (∃ msg m1 g1, demoBoard.MoveToNext emptyGlobals = .ok (msg, m1, g1) ∧
      m1.column inProgress = [⟨7, inProgress, "A", "a"⟩, ⟨8, inProgress, "B", "b"⟩] ∧
      (m1.column inProgress).getLast? = some ⟨8, inProgress, "B", "b"⟩) ∧
    (∃ msg m1 g1, demoBoardDone.MoveToNext emptyGlobals = .ok (msg, m1, g1) ∧
      m1.column todo = [⟨9, todo, "C", "c"⟩, ⟨7, todo, "A", "a"⟩] ∧
      (m1.column todo).getLast? = some ⟨7, todo, "A", "a"⟩) :=
  ⟨⟨_, _, _, rfl, rfl, rfl⟩, ⟨_, _, _, rfl, rfl, rfl⟩⟩

/-! ## Re-seeding the board -/

/-- C3 (evaluation at a failing input): a task is created on a freshly seeded board
over an empty table, every store call succeeding.  The todo column in memory holds
the task under identifier 0; Initialize on the resulting store yields it under
identifier 1, so the two columns differ even up to order. -/
theorem reseed_differs :
    ∃ m g t2 g2,
      submitSession emptyGlobals = .ok (TeaModel.board m, g) ∧
      Initialize demoCollab m g 80 24 = .ok (t2, g2) ∧
      m.column todo = [⟨0, todo, "a", "b"⟩] ∧
      t2.column todo = [⟨1, todo, "a", "b"⟩] ∧
      ¬ List.Perm (m.column todo) (t2.column todo) :=
  ⟨_, _, _, _, rfl, rfl, rfl, rfl, by decide⟩

/-! ## Deleting a created task -/

/-- C9 (evaluation at a failing input): a task is created on a freshly seeded board
over an empty table and is then deleted, every store call succeeding.  The store
holds the task under identifier 1; `Delete` removes it from the todo column and
issues one delete call, for identifier 0, so the row stays in the store. -/
theorem Delete_created_task :
    ∃ m g msg m1 g1,
      submitSession emptyGlobals = .ok (TeaModel.board m, g) ∧
      m.column todo = [⟨0, todo, "a", "b"⟩] ∧
      g.conn.rows = [⟨1, todo, "a", "b"⟩] ∧
      m.Delete g = .ok (msg, m1, g1) ∧
      m1.column todo = [] ∧
      g1.conn.calls = g.conn.calls ++ [StoreCall.delete 0] ∧
      g1.conn.rows = [⟨1, todo, "a", "b"⟩] :=
  ⟨_, _, _, _, _, rfl, rfl, rfl, rfl, rfl, rfl, rfl⟩

/-! ## Submit when the insert fails -/

/-- C4 (counterexample): the form of `formSession`, description field active, is
submitted and the store insert fails.  The error is reported and no item is added,
but the active model after Submit is the board, not the form. -/
theorem Submit_insert_fails_board_active :
    formSession failingGlobals = .ok (TeaModel.form filledForm, formGlobalsFailing) ∧
    filledForm.description.Focused = true ∧
    (∃ g1, filledForm.CreateTask formGlobalsFailing = (Msg.nil, g1) ∧
      g1.stderr = ["Error inserting task into database"]) ∧
    (∃ g1, Submit demoCollab filledForm formGlobalsFailing = .ok (TeaModel.board emptyBoard, g1)) ∧
    ¬ (∃ f1 g1, Submit demoCollab filledForm formGlobalsFailing = .ok (TeaModel.form f1, g1)) := by
  refine ⟨rfl, rfl, ⟨_, rfl, rfl⟩, ⟨_, rfl⟩, ?_⟩
  rintro ⟨f1, g1, h⟩
  have h2 : Submit demoCollab filledForm formGlobalsFailing =
      .ok (TeaModel.board emptyBoard,
        { formGlobalsFailing with
          conn := { formGlobalsFailing.conn with
                    script := [],
                    calls := formGlobalsFailing.conn.calls ++ [StoreCall.insert todo "a" "b"] },
          models := { formGlobalsFailing.models with form := TeaModel.form filledForm },
          stderr := ["Error inserting task into database"] }) := rfl
  rw [h2] at h
  cases h

/-- C4 (amended): for every form whose title field is not focused (the description
field is the active one), with the board in `models[kan]`: when Submit is issued
and the store insert fails, the active model becomes that board, unchanged (no
item is added to any column); the error is reported on the diagnostic stream, the
table keeps its rows, and the form kept in `models[form]` is the submitted form,
title and description values unchanged. -/
theorem Submit_failure (c : Collab) (f : Form) (g : Globals) (b : Model) (rest : List Bool)
    (hf : f.title.Focused = false) (hk : g.models.kan = TeaModel.board b)
    (hs : g.conn.script = false :: rest) :
    ∃ g1, Submit c f g = .ok (TeaModel.board b, g1) ∧
      g1.stderr = g.stderr ++ ["Error inserting task into database"] ∧
      g1.conn.rows = g.conn.rows ∧
      g1.conn.calls = g.conn.calls ++
        [StoreCall.insert f.focused f.title.Value f.description.Value] ∧
      g1.models.form = TeaModel.form f ∧
      g1.models.kan = TeaModel.board b := by
  obtain ⟨conn, models, err⟩ := g
  obtain ⟨rows, nextId, script, calls⟩ := conn
  simp only at hk hs
  subst hs
  refine ⟨
    { conn := { rows := rows, nextId := nextId, script := rest,
                calls := calls ++ [StoreCall.insert f.focused f.title.Value f.description.Value] },
      models := { models with form := TeaModel.form f },
      stderr := err ++ ["Error inserting task into database"] }, ?_, rfl, rfl, rfl, rfl, hk⟩
  simp [Submit, handle, TeaModel.Update, Form.Update, hf, hk, runCmd, Form.CreateTask, NewTask,
    Conn.Exec, bind, Except.bind, pure, Except.pure]

/-- Witness for C4 (amended): the form of `formSession` over the failing store. -/
theorem Submit_failure_witness :
    filledForm.title.Focused = false ∧
    ∃ g1, Submit demoCollab filledForm formGlobalsFailing = .ok (TeaModel.board emptyBoard, g1) ∧
      g1.stderr = formGlobalsFailing.stderr ++ ["Error inserting task into database"] ∧
      g1.conn.rows = formGlobalsFailing.conn.rows ∧
      g1.conn.calls = formGlobalsFailing.conn.calls ++
        [StoreCall.insert filledForm.focused filledForm.title.Value filledForm.description.Value] ∧
      g1.models.form = TeaModel.form filledForm ∧
      g1.models.kan = TeaModel.board emptyBoard :=
  ⟨rfl, Submit_failure demoCollab filledForm formGlobalsFailing emptyBoard [] rfl rfl rfl⟩

/-! ## Edit keys in the form -/

theorem singleton_ne_keys (ch : Char) (hq : ch ≠ 'q') :
    String.singleton ch ≠ "ctrl+c" ∧ String.singleton ch ≠ "q" ∧
      String.singleton ch ≠ "enter" := by
  have hs : String.singleton ch = String.mk [ch] := rfl
  refine ⟨?_, ?_, ?_⟩
  · intro h
    have h2 := congrArg String.length h
    rw [hs] at h2
    have h3 : (String.mk [ch]).length = 1 := rfl
    rw [h3] at h2
    exact absurd h2 (by decide)
  · intro h
    rw [hs] at h
    have h2 : [ch] = ['q'] := congrArg String.data h
    exact hq (by simpa using h2)
  · intro h
    have h2 := congrArg String.length h
    rw [hs] at h2
    have h3 : (String.mk [ch]).length = 1 := rfl
    rw [h3] at h2
    exact absurd h2 (by decide)

/-- C6 (counterexample): the printable character "q" typed into the form of
`formSession` is not forwarded to the active field: `Form.Update` returns the quit
command and leaves both fields as they were. -/
theorem Form_q_quits :
    Form.Update demoCollab filledForm formGlobals (runeKey 'q') =
      (TeaModel.form filledForm, Cmd.Quit, formGlobals) := by
  decide

/-- C6 (amended): for every form, whichever field is active, and all globals:
the key "q" (the character key as well as any key message that reads "q") and the
key "ctrl+c" issue the quit command, change no field and make no store call; and
for every character key other than "q", `Form.Update` leaves the form as the
active model, returns the command of the text widget (neither quit nor
`CreateTask`), leaves the globals as they are (no store call), and changes only the
active field: the title when the title is focused, the description otherwise, each
as its widget updates it; the other field and the target status are unchanged. -/
theorem Form_edit_key (c : Collab) (f : Form) (g : Globals) (ch : Char) :
    (Form.Update c f g (runeKey 'q') = (TeaModel.form f, Cmd.Quit, g) ∧
      Form.Update c f g (Msg.KeyMsg "q") = (TeaModel.form f, Cmd.Quit, g) ∧
      Form.Update c f g (Msg.KeyMsg "ctrl+c") = (TeaModel.form f, Cmd.Quit, g) ∧
      handle c (TeaModel.form f) g (Msg.KeyMsg "q") = .ok (TeaModel.form f, g) ∧
      handle c (TeaModel.form f) g (Msg.KeyMsg "ctrl+c") = .ok (TeaModel.form f, g)) ∧
    (ch ≠ 'q' →
      ∃ f1, Form.Update c f g (runeKey ch) = (TeaModel.form f1, Cmd.widget, g) ∧
        handle c (TeaModel.form f) g (runeKey ch) = .ok (TeaModel.form f1, g) ∧
        f1.focused = f.focused ∧
        (f.title.Focused = true →
          f1.title = c.textinputUpdate f.title (runeKey ch) ∧ f1.description = f.description) ∧
        (f.title.Focused = false →
          f1.description = c.textareaUpdate f.description (runeKey ch) ∧
            f1.title = f.title)) := by
  refine ⟨⟨?_, ?_, ?_, ?_, ?_⟩, ?_⟩
  · have hq : runeKey 'q' = Msg.KeyMsg "q" := by decide
    rw [hq]
    simp [Form.Update]
  · simp [Form.Update]
  · simp [Form.Update]
  · simp [handle, TeaModel.Update, Form.Update, runCmd, bind, Except.bind, pure, Except.pure]
  · simp [handle, TeaModel.Update, Form.Update, runCmd, bind, Except.bind, pure, Except.pure]
  · intro hq
    obtain ⟨h1, h2, h3⟩ := singleton_ne_keys ch hq
    cases ht : f.title.Focused
    · refine ⟨{ f with description := c.textareaUpdate f.description (runeKey ch) },
        ?_, ?_, rfl, ?_, ?_⟩
      · simp [Form.Update, runeKey, h1, h2, h3, ht]
      · simp [handle, TeaModel.Update, Form.Update, runeKey, h1, h2, h3, ht, runCmd, bind,
          Except.bind, pure, Except.pure]
      · intro h; cases h
      · intro _; exact ⟨rfl, rfl⟩
    · refine ⟨{ f with title := c.textinputUpdate f.title (runeKey ch) }, ?_, ?_, rfl, ?_, ?_⟩
      · simp [Form.Update, runeKey, h1, h2, h3, ht]
      · simp [handle, TeaModel.Update, Form.Update, runeKey, h1, h2, h3, ht, runCmd, bind,
          Except.bind, pure, Except.pure]
      · intro _; exact ⟨rfl, rfl⟩
      · intro h; cases h

/-- Witness for C6 (amended): the character "x" typed into the description of the
form of `formSession`, and the quit keys on the same form. -/
theorem Form_edit_key_witness :
    'x' ≠ 'q' ∧
    Form.Update demoCollab filledForm formGlobals (Msg.KeyMsg "ctrl+c") =
      (TeaModel.form filledForm, Cmd.Quit, formGlobals) ∧
    ∃ f1, Form.Update demoCollab filledForm formGlobals (runeKey 'x') =
        (TeaModel.form f1, Cmd.widget, formGlobals) ∧
      handle demoCollab (TeaModel.form filledForm) formGlobals (runeKey 'x') =
        .ok (TeaModel.form f1, formGlobals) ∧
      f1.focused = filledForm.focused ∧
      (filledForm.title.Focused = true →
        f1.title = demoCollab.textinputUpdate filledForm.title (runeKey 'x') ∧
          f1.description = filledForm.description) ∧
      (filledForm.title.Focused = false →
        f1.description = demoCollab.textareaUpdate filledForm.description (runeKey 'x') ∧
          f1.title = filledForm.title) :=
  ⟨by decide, (Form_edit_key demoCollab filledForm formGlobals 'x').1.2.2.1,
    (Form_edit_key demoCollab filledForm formGlobals 'x').2 (by decide)⟩

/-! ## MoveSelectedForward and DeleteSelected -/

/-- `MoveToNext` on a seeded board whose focused list has no filter set and has a
selected item `x`, whatever the outcome of the update-status call: `MoveToNext`
returns; `x` had the status of the focused column; the source column is its old
contents with the selected position removed; the column of the cyclic successor
of that status (todo to in progress, in progress to done, done to todo) holds `x`
with its status set to the successor and id, title and description unchanged, next
to its old items; the remaining column and the focus are unchanged; and one
update-status call for the new status and the id of `x` is issued. -/
theorem MoveToNext_unfiltered (m : Model) (g : Globals) (src : ListModel) (x : Task)
    (hwf : m.WF = true) (hsrc : listAt m.lists m.focused = .ok src)
    (hu : src.filterState = FilterState.Unfiltered) (hx : src.SelectedItem = some x) :
    x.status = m.focused ∧
    ((x.status = todo ∧ x.Next.status = inProgress) ∨
      (x.status = inProgress ∧ x.Next.status = done) ∨
      (x.status = done ∧ x.Next.status = todo)) ∧
    x.Next = { x with status := (x.status + 1) % 3 } ∧
    ∃ msg m1 g1 dst,
      m.MoveToNext g = .ok (msg, m1, g1) ∧
      m1.focused = m.focused ∧
      listAt m1.lists m.focused = .ok (src.RemoveItem src.Index) ∧
      m1.column m.focused = src.items.eraseIdx src.index ∧
      listAt m.lists x.Next.status = .ok dst ∧
      listAt m1.lists x.Next.status =
        .ok (dst.InsertItem ((dst.items.length : Int) - 1) x.Next) ∧
      x.Next ∈ m1.column x.Next.status ∧
      List.Perm (m1.column x.Next.status) (x.Next :: m.column x.Next.status) ∧
      listAt m1.lists ((x.status + 2) % 3) = listAt m.lists ((x.status + 2) % 3) ∧
      g1.conn.calls = g.conn.calls ++ [StoreCall.update x.Next.status x.id] := by
  obtain ⟨hxm, hidx⟩ := SelectedItem_some src x hx
  rw [VisibleItems_unfiltered src hu] at hxm hidx
  obtain ⟨l0, l1, l2, hl, hf, h0, h1, h2⟩ := WF_shape m hwf
  obtain ⟨foc, lists, ld, q⟩ := m
  simp only at hl hf hsrc
  subst hl
  obtain ⟨xid, xst, xti, xde⟩ := x
  rcases hf with hf | hf | hf <;> subst hf
  · simp [listAt, pure, Except.pure] at hsrc
    subst hsrc
    have hst := colOk_status _ _ _ h0 hxm
    simp only at hst
    subst hst
    by_cases hr : (g.conn.Exec (StoreCall.update 1 xid)).1 = true <;>
    simp [Model.MoveToNext, listAt, listSet, hx, Task.Next, done, todo, inProgress, bind,
      Except.bind, pure, Except.pure, hr] <;>
    refine ⟨_, _, _, ⟨rfl, rfl, rfl⟩, ?_⟩ <;>
    simp [Model.column, listAt, pure, Except.pure, Exec_calls, ListModel.RemoveItem,
      ListModel.InsertItem, ListModel.Index, hu,
      ListModel.Items, removeItemFromSlice_lt _ _ hidx, insertItemIntoSlice_perm,
      insertItemIntoSlice_mem]
  · simp [listAt, pure, Except.pure] at hsrc
    subst hsrc
    have hst := colOk_status _ _ _ h1 hxm
    simp only at hst
    subst hst
    by_cases hr : (g.conn.Exec (StoreCall.update 2 xid)).1 = true <;>
    simp [Model.MoveToNext, listAt, listSet, hx, Task.Next, done, todo, inProgress, bind,
      Except.bind, pure, Except.pure, hr] <;>
    refine ⟨_, _, _, ⟨rfl, rfl, rfl⟩, ?_⟩ <;>
    simp [Model.column, listAt, pure, Except.pure, Exec_calls, ListModel.RemoveItem,
      ListModel.InsertItem, ListModel.Index, hu,
      ListModel.Items, removeItemFromSlice_lt _ _ hidx, insertItemIntoSlice_perm,
      insertItemIntoSlice_mem]
  · simp [listAt, pure, Except.pure] at hsrc
    subst hsrc
    have hst := colOk_status _ _ _ h2 hxm
    simp only at hst
    subst hst
    by_cases hr : (g.conn.Exec (StoreCall.update 0 xid)).1 = true <;>
    simp [Model.MoveToNext, listAt, listSet, hx, Task.Next, done, todo, inProgress, bind,
      Except.bind, pure, Except.pure, hr] <;>
    refine ⟨_, _, _, ⟨rfl, rfl, rfl⟩, ?_⟩ <;>
    simp [Model.column, listAt, pure, Except.pure, Exec_calls, ListModel.RemoveItem,
      ListModel.InsertItem, ListModel.Index, hu,
      ListModel.Items, removeItemFromSlice_lt _ _ hidx, insertItemIntoSlice_perm,
      insertItemIntoSlice_mem]


/-- The unfiltered case at a concrete input: the selected todo task of `demoBoard`. -/
theorem MoveToNext_unfiltered_demo :
    ∃ msg m1 g1, demoBoard.MoveToNext demoGlobals = .ok (msg, m1, g1) ∧
      m1.column todo = [] ∧
      (⟨7, inProgress, "A", "a"⟩ : Task) ∈ m1.column inProgress := by
  have h := MoveToNext_unfiltered demoBoard demoGlobals (demoList [⟨7, todo, "A", "a"⟩])
    ⟨7, todo, "A", "a"⟩ (by decide) rfl rfl rfl
  obtain ⟨-, -, -, msg, m1, g1, dst, hrun, -, -, hsrcCol, -, -, hmem, -, -, -⟩ := h
  exact ⟨msg, m1, g1, hrun, hsrcCol, hmem⟩

/-- C7 (evaluation at a failing input): the todo column holds A and B; the keys "/"
and "B" filter it, so the list shows B alone with the cursor on it, and B is the
selected item.  `MoveToNext` takes the selected item from the filtered items but
removes the position of the cursor from the unfiltered item slice: the todo column
keeps B and loses A, a copy of B with status in progress enters the in progress
column, and the update-status call is for B. -/
theorem MoveToNext_filtered :
    runMsgs demoCollab filterKeys (TeaModel.board New) twoTodoGlobals =
      .ok (TeaModel.board filteredBoard, filteredGlobals) ∧
    filteredBoard.column todo = [⟨7, todo, "A", "a"⟩, ⟨10, todo, "B", "b"⟩] ∧
    (∃ l, listAt filteredBoard.lists filteredBoard.focused = .ok l ∧
      l.SelectedItem = some ⟨10, todo, "B", "b"⟩ ∧ l.Index = 0) ∧
    (∃ msg m1 g1, filteredBoard.MoveToNext filteredGlobals = .ok (msg, m1, g1) ∧
      m1.column todo = [⟨10, todo, "B", "b"⟩] ∧
      m1.column todo ≠ [⟨7, todo, "A", "a"⟩] ∧
      m1.column inProgress = [⟨10, inProgress, "B", "b"⟩] ∧
      m1.column done = [] ∧
      g1.conn.calls = filteredGlobals.conn.calls ++ [StoreCall.update inProgress 10]) ∧
    (∃ t g2, runMsgs demoCollab (filterKeys ++ [Msg.KeyMsg "enter"]) (TeaModel.board New)
        twoTodoGlobals = .ok (t, g2) ∧
      t.column todo = [⟨10, todo, "B", "b"⟩] ∧
      t.column inProgress = [⟨10, inProgress, "B", "b"⟩] ∧
      g2.conn.rows = [⟨7, todo, "A", "a"⟩, ⟨10, inProgress, "B", "b"⟩]) :=
  ⟨rfl, rfl, ⟨_, rfl, rfl, rfl⟩, ⟨_, _, _, rfl, rfl, by decide, rfl, rfl, rfl⟩,
    ⟨_, _, rfl, rfl, rfl, rfl⟩⟩

/-- C10: on a board whose focused column has no selected item, `MoveToNext` and
`Delete` each return the nil message without failing and leave the board (all
columns, the focus) and the globals (the store, the log of store calls, the
diagnostics) exactly as they were; the same holds for the keys "enter" and
"delete" handled from `Model.Update` on. -/
theorem no_selection_noop (m : Model) (g : Globals) (l : ListModel) (c : Collab)
    (hl : listAt m.lists m.focused = .ok l) (hs : l.SelectedItem = none) :
    m.MoveToNext g = .ok (Msg.nil, m, g) ∧ m.Delete g = .ok (Msg.nil, m, g) ∧
    handle c (TeaModel.board m) g (Msg.KeyMsg "enter") = .ok (TeaModel.board m, g) ∧
    handle c (TeaModel.board m) g (Msg.KeyMsg "delete") = .ok (TeaModel.board m, g) := by
  have h1 := MoveToNext_none m g l hl hs
  have h2 := Delete_none m g l hl hs
  refine ⟨h1, h2, ?_, ?_⟩
  · simp [handle, TeaModel.Update, Model.Update, runCmd, h1, bind, Except.bind, pure, Except.pure]
  · simp [handle, TeaModel.Update, Model.Update, runCmd, h2, bind, Except.bind, pure, Except.pure]

/-- Witness for C10: the empty done column of `demoBoardEmptyDone`. -/
theorem no_selection_noop_witness :
    listAt demoBoardEmptyDone.lists demoBoardEmptyDone.focused = .ok (demoList []) ∧
    (demoList []).SelectedItem = none ∧
    demoBoardEmptyDone.MoveToNext demoGlobals = .ok (Msg.nil, demoBoardEmptyDone, demoGlobals) ∧
    demoBoardEmptyDone.Delete demoGlobals = .ok (Msg.nil, demoBoardEmptyDone, demoGlobals) :=
  ⟨rfl, rfl, (no_selection_noop demoBoardEmptyDone demoGlobals (demoList []) demoCollab rfl rfl).1,
    (no_selection_noop demoBoardEmptyDone demoGlobals (demoList []) demoCollab rfl rfl).2.1⟩

/-! ## The column invariant on reachable boards -/

/-- C5: in every board state reached from Initialize by a sequence of
MoveSelectedForward, DeleteSelected, AcceptCreatedItem, FocusNext, FocusPrev,
cursor movements and list events (a filter being opened, typed, applied or reset),
store calls succeeding or failing as the connection decides, the active model is
the board, it holds its three columns, and every item held in column `i`, as well
as every item the list of column `i` shows under its filter, has status `i`, for
`i` todo, in progress and done. -/
theorem column_invariant (c : Collab) (g : Globals) (w h : Int) (ops : List BoardOp)
    (t : TeaModel) (g1 : Globals) (hr : boardRun c g w h ops = .ok (t, g1)) :
    ∃ m, t = TeaModel.board m ∧
      ∀ i, i = todo ∨ i = inProgress ∨ i = done →
        ∃ l, listAt m.lists i = .ok l ∧ (∀ x ∈ l.items, x.status = i) ∧
          ∀ x ∈ l.VisibleItems, x.status = i := by
  unfold boardRun at hr
  cases hi : Initialize c New g w h with
  | error e => simp [hi, bind, Except.bind] at hr
  | ok r0 =>
    obtain ⟨m0, hm0, hwf0⟩ := Initialize_WF c New g w h (Or.inl rfl) r0 hi
    obtain ⟨t0, g0⟩ := r0
    simp only at hm0
    subst hm0
    simp [hi, bind, Except.bind] at hr
    obtain ⟨m1, hm1, hwf1⟩ := runOps_WF c ops m0 g0 hwf0 _ hr
    simp only at hm1
    subst hm1
    refine ⟨m1, rfl, ?_⟩
    obtain ⟨l0, l1, l2, hl, -, h0, h1, h2⟩ := WF_shape m1 hwf1
    intro i hi
    rw [hl]
    rcases hi with hi | hi | hi <;> subst hi
    · exact ⟨l0, rfl, fun x hx => colOk_status _ _ _ h0 hx,
        fun x hx => colOk_visible _ _ _ h0 hx⟩
    · exact ⟨l1, rfl, fun x hx => colOk_status _ _ _ h1 hx,
        fun x hx => colOk_visible _ _ _ h1 hx⟩
    · exact ⟨l2, rfl, fun x hx => colOk_status _ _ _ h2 hx,
        fun x hx => colOk_visible _ _ _ h2 hx⟩

/-- Witness for C5: a run over a table of two tasks in which the second move meets a
failing store call and a later move is made under a filter. -/
theorem column_invariant_witness :
    ∃ t g1,
      boardRun demoCollab demoGlobals 80 24 demoOps = .ok (t, g1) ∧
      ∃ m, t = TeaModel.board m ∧
        ∀ i, i = todo ∨ i = inProgress ∨ i = done →
          ∃ l, listAt m.lists i = .ok l ∧ (∀ x ∈ l.items, x.status = i) ∧
            ∀ x ∈ l.VisibleItems, x.status = i := by
  have h : ∃ r, boardRun demoCollab demoGlobals 80 24 demoOps = .ok r := ⟨_, rfl⟩
  obtain ⟨⟨t, g1⟩, hr⟩ := h
  exact ⟨t, g1, hr, column_invariant demoCollab demoGlobals 80 24 demoOps t g1 hr⟩

/-! ## General form of the divergences -/

/-- On a non-empty slice, the index `len - 1` places the item before the last
item, which stays last. -/
theorem insertItemIntoSlice_before_last (items : List Task) (x : Task) (h : items ≠ []) :
    insertItemIntoSlice items x ((items.length : Int) - 1) =
      items.dropLast ++ [x, items.getLast h] := by
  have hpos : 0 < items.length := List.length_pos.mpr h
  have hn : (max 0 ((items.length : Int) - 1)).toNat = items.length - 1 := by omega
  have hlt : ¬ ((items.length : Int) - 1 ≥ items.length) := by omega
  have ht : items.take (items.length - 1) = items.dropLast := (List.dropLast_eq_take items).symm
  have hd : items.drop (items.length - 1) = [items.getLast h] := by
    have h1 := List.take_append_drop (items.length - 1) items
    rw [ht] at h1
    exact List.append_cancel_left (h1.trans (List.dropLast_append_getLast h).symm)
  unfold insertItemIntoSlice
  rw [if_neg hlt]
  simp only [hn, ht, hd]

/-- Whenever the insert succeeds, `CreateTask` returns the task with identifier 0
while the row is stored under the identifier the store assigns. -/
theorem CreateTask_ok (f : Form) (g : Globals) (h : g.conn.script.head? ≠ some false) :
    ∃ g1, f.CreateTask g = (Msg.task ⟨0, f.focused, f.title.value, f.description.value⟩, g1) ∧
      g1.conn.rows = g.conn.rows ++
        [⟨g.conn.nextId, f.focused, f.title.value, f.description.value⟩] := by
  obtain ⟨conn, models, err⟩ := g
  obtain ⟨rows, nextId, script, calls⟩ := conn
  match script, h with
  | [], _ => exact ⟨_, rfl, rfl⟩
  | true :: rest, _ => exact ⟨_, rfl, rfl⟩
  | false :: rest, h => exact absurd rfl h

/-- `Delete` on a seeded board whose focused list has no filter set and has a
selected item `x`: the focused column loses the selected position, the other lists
are untouched, and one delete call is issued, for the `id` field of `x`. -/
theorem Delete_removes (m : Model) (g : Globals) (src : ListModel) (x : Task)
    (hwf : m.WF = true) (hsrc : listAt m.lists m.focused = .ok src)
    (hu : src.filterState = FilterState.Unfiltered) (hx : src.SelectedItem = some x) :
    x.status = m.focused ∧
    ∃ msg m1 g1,
      m.Delete g = .ok (msg, m1, g1) ∧
      m1.focused = m.focused ∧
      m1.column m.focused = src.items.eraseIdx src.index ∧
      listAt m1.lists ((m.focused + 1) % 3) = listAt m.lists ((m.focused + 1) % 3) ∧
      listAt m1.lists ((m.focused + 2) % 3) = listAt m.lists ((m.focused + 2) % 3) ∧
      g1.conn.calls = g.conn.calls ++ [StoreCall.delete x.id] := by
  obtain ⟨hxm, hidx⟩ := SelectedItem_some src x hx
  rw [VisibleItems_unfiltered src hu] at hxm hidx
  obtain ⟨l0, l1, l2, hl, hf, h0, h1, h2⟩ := WF_shape m hwf
  have hst : x.status = m.focused := by
    obtain ⟨foc, lists, ld, q⟩ := m
    simp only at hl hf hsrc
    subst hl
    rcases hf with hf | hf | hf <;> subst hf <;> simp [listAt, pure, Except.pure] at hsrc <;>
      subst hsrc
    · exact colOk_status _ _ _ h0 hxm
    · exact colOk_status _ _ _ h1 hxm
    · exact colOk_status _ _ _ h2 hxm
  obtain ⟨msg, g1, hrun, -, hconn, -⟩ := Delete_some m g src x hsrc hx hst
  refine ⟨hst, msg, _, g1, hrun, rfl, ?_, ?_, ?_, ?_⟩
  · obtain ⟨foc, lists, ld, q⟩ := m
    simp only at hl hf hsrc
    subst hl
    rcases hf with hf | hf | hf <;> subst hf <;> simp [listAt, pure, Except.pure] at hsrc <;>
      subst hsrc <;>
      simp [Model.column, listAt, listSet, pure, Except.pure, ListModel.RemoveItem,
        ListModel.Index, hu, removeItemFromSlice_lt _ _ hidx]
  · obtain ⟨foc, lists, ld, q⟩ := m
    simp only at hl hf
    subst hl
    rcases hf with hf | hf | hf <;> subst hf <;> simp [listAt, listSet]
  · obtain ⟨foc, lists, ld, q⟩ := m
    simp only at hl hf
    subst hl
    rcases hf with hf | hf | hf <;> subst hf <;> simp [listAt, listSet]
  · rw [hconn, Exec_calls]

/-- `MoveToNext` on a seeded board whose destination column is not empty: the moved
item is placed before the last item of the destination column. -/
theorem MoveToNext_last_kept (m : Model) (g : Globals) (src dst : ListModel) (x : Task)
    (hwf : m.WF = true) (hsrc : listAt m.lists m.focused = .ok src)
    (hx : src.SelectedItem = some x) (hdst : listAt m.lists x.Next.status = .ok dst)
    (hne : dst.items ≠ []) :
    ∃ msg m1 g1, m.MoveToNext g = .ok (msg, m1, g1) ∧
      m1.column x.Next.status = dst.items.dropLast ++ [x.Next, dst.items.getLast hne] := by
  obtain ⟨hxm, hidx⟩ := SelectedItem_some src x hx
  obtain ⟨l0, l1, l2, hl, hf, h0, h1, h2⟩ := WF_shape m hwf
  obtain ⟨foc, lists, ld, q⟩ := m
  simp only at hl hf hsrc hdst
  subst hl
  rcases hf with hf | hf | hf <;> subst hf <;> simp [listAt, pure, Except.pure] at hsrc <;>
    subst hsrc
  · have hst : x.status = 0 := colOk_visible _ _ _ h0 hxm
    have hn := (Next_status x).1 hst
    simp [hn, listAt, pure, Except.pure] at hdst
    subst hdst
    obtain ⟨msg, g1, hrun, -, -, -⟩ := MoveToNext_some
      { focused := 0, lists := [l0, l1, l2], loaded := ld, quitting := q } g l0 l1 x
      (by simp [listAt, pure, Except.pure]) hx hst
      (by simp [listAt, listSet, hn, pure, Except.pure])
    refine ⟨_, _, _, hrun, ?_⟩
    simp [hn, Model.column, listAt, listSet, pure, Except.pure, ListModel.InsertItem,
      insertItemIntoSlice_before_last _ _ hne]
  · have hst : x.status = 1 := colOk_visible _ _ _ h1 hxm
    have hn := (Next_status x).2.1 hst
    simp [hn, listAt, pure, Except.pure] at hdst
    subst hdst
    obtain ⟨msg, g1, hrun, -, -, -⟩ := MoveToNext_some
      { focused := 1, lists := [l0, l1, l2], loaded := ld, quitting := q } g l1 l2 x
      (by simp [listAt, pure, Except.pure]) hx hst
      (by simp [listAt, listSet, hn, pure, Except.pure])
    refine ⟨_, _, _, hrun, ?_⟩
    simp [hn, Model.column, listAt, listSet, pure, Except.pure, ListModel.InsertItem,
      insertItemIntoSlice_before_last _ _ hne]
  · have hst : x.status = 2 := colOk_visible _ _ _ h2 hxm
    have hn := (Next_status x).2.2 hst
    simp [hn, listAt, pure, Except.pure] at hdst
    subst hdst
    obtain ⟨msg, g1, hrun, -, -, -⟩ := MoveToNext_some
      { focused := 2, lists := [l0, l1, l2], loaded := ld, quitting := q } g l2 l0 x
      (by simp [listAt, pure, Except.pure]) hx hst
      (by simp [listAt, listSet, hn, pure, Except.pure])
    refine ⟨_, _, _, hrun, ?_⟩
    simp [hn, Model.column, listAt, listSet, pure, Except.pure, ListModel.InsertItem,
      insertItemIntoSlice_before_last _ _ hne]

end Kanugo
